import Mathlib

set_option maxRecDepth 20000

/-! Shallow embedding of the QR renderer in src/fastapi_service/main.py.

The drawing surface is modelled as a trace of drawing primitives (the PIL
calls issued by draw_qr, in order), together with a pixel semantics for the
primitives: PIL rectangle and rounded-rectangle fills are inclusive of both
corner coordinates, an ellipse with the symmetric bounding box used by the
source is the closed integer disk, and alpha_composite writes only inside
the pasted box.  Python floats that enter the arithmetic are decimal
literals of the request; they are embedded as exact fractions (a numerator
and a positive denominator), and Python int() truncation is Int.tdiv while
Python floor division is Int division by a positive number. -/

/-- RGBA color with integer channels, as produced by parse_hex_rgba in the
source; the renderer treats the channels as opaque payload. -/
structure Color where
  r : ℤ
  g : ℤ
  b : ℤ
  a : ℤ
  deriving DecidableEq, Repr

/-- Fully transparent pixel, the initial canvas value in draw_qr. -/
def transparent : Color := ⟨0, 0, 0, 0⟩

/-- Default dark color of draw_qr, used when the foreground string fails to
give a color. -/
def blackRGBA : Color := ⟨0, 0, 0, 255⟩

/-- Default light color of draw_qr, used when the background string fails to
give a color. -/
def whiteRGBA : Color := ⟨255, 255, 255, 255⟩

/-- Whitespace characters removed by Python str.strip (the ASCII ones). -/
def isPyWs (c : Char) : Bool :=
  c = ' ' || c = '\t' || c = '\n' || c = '\x0d' || c = '\x0b' || c = '\x0c'

/-- Python value.strip(): drop leading and trailing whitespace. -/
def pyStrip (s : List Char) : List Char :=
  ((s.dropWhile isPyWs).reverse.dropWhile isPyWs).reverse

/-- Python .lstrip applied with the hash sign: drop every leading hash. -/
def lstripHash (s : List Char) : List Char :=
  s.dropWhile (fun c => c = '#')

/-- Hexadecimal digit test, case insensitive. -/
def isHexDig (c : Char) : Bool :=
  ('0' ≤ c && c ≤ '9') || ('a' ≤ c && c ≤ 'f') || ('A' ≤ c && c ≤ 'F')

/-- Value of a hexadecimal digit. -/
def hexVal (c : Char) : ℤ :=
  if '0' ≤ c && c ≤ '9' then (c.toNat : ℤ) - 48
  else if 'a' ≤ c && c ≤ 'f' then (c.toNat : ℤ) - 87
  else (c.toNat : ℤ) - 55

/-- Python int(s, 16) on the two-character strings built by parse_hex_rgba:
two hex digits, or one hex digit padded by whitespace, or a signed single
digit; anything else raises (None here). -/
def int2hex (c0 c1 : Char) : Option ℤ :=
  if isHexDig c0 && isHexDig c1 then some (16 * hexVal c0 + hexVal c1)
  else if isPyWs c0 && isHexDig c1 then some (hexVal c1)
  else if isHexDig c0 && isPyWs c1 then some (hexVal c0)
  else if c0 = '+' && isHexDig c1 then some (hexVal c1)
  else if c0 = '-' && isHexDig c1 then some (-hexVal c1)
  else none

/-- The 3-digit branch of parse_hex_rgba: each digit is doubled before
int(s, 16), and alpha is 255. -/
def hex3 (c0 c1 c2 : Char) : Option Color :=
  match int2hex c0 c0, int2hex c1 c1, int2hex c2 c2 with
  | some r, some g, some b => some ⟨r, g, b, 255⟩
  | _, _, _ => none

/-- The 6-digit branch of parse_hex_rgba, with alpha 255. -/
def hex6 (c0 c1 c2 c3 c4 c5 : Char) : Option Color :=
  match int2hex c0 c1, int2hex c2 c3, int2hex c4 c5 with
  | some r, some g, some b => some ⟨r, g, b, 255⟩
  | _, _, _ => none

/-- The 8-digit branch of parse_hex_rgba, with explicit alpha. -/
def hex8 (c0 c1 c2 c3 c4 c5 c6 c7 : Char) : Option Color :=
  match int2hex c0 c1, int2hex c2 c3, int2hex c4 c5, int2hex c6 c7 with
  | some r, some g, some b, some a => some ⟨r, g, b, a⟩
  | _, _, _, _ => none

/-- Embedding of parse_hex_rgba from the source: strip the value, drop the
leading hash signs, then decode 3, 6 or 8 hex digits; other lengths give the
caller-supplied default; a 3, 6 or 8 character value with a character that
int(s, 16) rejects raises a ValueError, modelled as none. -/
def parse_hex_rgba (value : List Char) (default : Color) : Option Color :=
  match lstripHash (pyStrip value) with
  | [c0, c1, c2] => hex3 c0 c1 c2
  | [c0, c1, c2, c3, c4, c5] => hex6 c0 c1 c2 c3 c4 c5
  | [c0, c1, c2, c3, c4, c5, c6, c7] => hex8 c0 c1 c2 c3 c4 c5 c6 c7
  | _ => some default

example : parse_hex_rgba "#fff".toList blackRGBA = some ⟨255, 255, 255, 255⟩ := by decide

example : parse_hex_rgba "#112233".toList blackRGBA = some ⟨17, 34, 51, 255⟩ := by decide

example : parse_hex_rgba "#112233AA".toList blackRGBA = some ⟨17, 34, 51, 170⟩ := by decide

example : parse_hex_rgba "nonsense!".toList whiteRGBA = some whiteRGBA := by decide

example : parse_hex_rgba "zzz".toList whiteRGBA = none := by decide

/-- Exact value of a numeric style field of the request (Python floats enter
as decimal literals; they are embedded as exact fractions with a positive
denominator). -/
structure Frac where
  num : ℤ
  den : ℤ
  pos : 0 < den

/-- Comparison of two embedded fractions, by cross multiplication. -/
def Frac.leB (a b : Frac) : Bool := decide (a.num * b.den ≤ b.num * a.den)

/-- Python min of two floats (first argument on a tie). -/
def Frac.minF (a b : Frac) : Frac := if a.leB b then a else b

/-- Python max of two floats (first argument on a tie). -/
def Frac.maxF (a b : Frac) : Frac := if b.leB a then a else b

/-- Embedding of clamp from the source: max(lo, min(hi, v)). -/
def clamp (v lo hi : Frac) : Frac := lo.maxF (hi.minF v)

/-- Product of two embedded fractions, without normalisation. -/
def Frac.mulF (a b : Frac) : Frac :=
  ⟨a.num * b.num, a.den * b.den, mul_pos a.pos b.pos⟩

/-- Difference of two embedded fractions, without normalisation. -/
def Frac.subF (a b : Frac) : Frac :=
  ⟨a.num * b.den - b.num * a.den, a.den * b.den, mul_pos a.pos b.pos⟩

/-- Python int(f * k) for an embedded fraction f and an integer k: the exact
product truncated toward zero. -/
def Frac.intMul (f : Frac) (k : ℤ) : ℤ := Int.tdiv (f.num * k) f.den

/-- Python test f > 0 for an embedded fraction. -/
def Frac.posB (f : Frac) : Bool := decide (0 < f.num)

/-- The fraction one half. -/
def fHalf : Frac := ⟨1, 2, by decide⟩

/-- The fraction 0.0. -/
def fZero : Frac := ⟨0, 1, by decide⟩

/-- The fraction 0.49, the upper clamp bound for dot_margin. -/
def fMargHi : Frac := ⟨49, 100, by decide⟩

/-- The fraction 0.20, the upper clamp bound for hole_percentage and the
logo size bound. -/
def fFifth : Frac := ⟨1, 5, by decide⟩

/-- The fraction 1.5, the eye radius multiplier. -/
def fThreeHalves : Frac := ⟨3, 2, by decide⟩

/-- Shape of the optional central hole. -/
inductive HoleShape where
  | circle
  | rectangle
  deriving DecidableEq, Repr

/-- The styling fields of QRRequest that draw_qr reads.  The text and
error_correction fields only feed the external QR matrix generator, so the
matrix is an explicit input of draw_qr here; logo_base64 enters through its
truthiness (has_logo) and through the externally decoded raster passed to
draw_qr. -/
structure QRRequest where
  rounded_finders : Bool := true
  dot_style : Bool := true
  foreground : List Char := "#000000".toList
  background : List Char := "#ffffff".toList
  hole : Bool := false
  hole_shape : HoleShape := HoleShape.circle
  hole_percentage : Frac := ⟨1, 10, by decide⟩
  use_logo : Bool := false
  has_logo : Bool := false
  pixel_size : ℕ := 1080
  rounded_canvas : Bool := true
  finder_round_ratio : Frac := ⟨9, 20, by decide⟩
  dot_margin : Frac := ⟨9, 50, by decide⟩
  quiet_zone_modules : ℕ := 4

/-- The request with every field at its source default. -/
def defaultReq : QRRequest := {}

/-- Drawing primitive issued by draw_qr, with the arguments the source
passes to PIL. -/
inductive Op where
  | rect (x0 y0 x1 y1 : ℤ) (fill : Color)
  | rrect (x0 y0 x1 y1 rad : ℤ) (fill : Color)
  | disk (cx cy rad : ℤ) (fill : Color)
  | logoOp (x0 y0 : ℤ) (w h : ℕ)
  deriving DecidableEq, Repr

/-- Module-size and placement numbers of one render, as computed at the top
of draw_qr. -/
structure Geom where
  offset : ℤ
  B : ℤ
  S : ℤ
  deriving DecidableEq, Repr

/-- Embedding of rect_for_block from the source: pixel rectangle of a block
of w modules anchored at module (r0, c0). -/
def rect_for_block (g : Geom) (r0 c0 w : ℤ) : ℤ × ℤ × ℤ × ℤ :=
  let x0 := g.offset + (g.B + c0) * g.S
  let y0 := g.offset + (g.B + r0) * g.S
  (x0, y0, x0 + w * g.S, y0 + w * g.S)

/-- PIL draw.rectangle on a rect_for_block rectangle. -/
def rectOp (rc : ℤ × ℤ × ℤ × ℤ) (fill : Color) : Op :=
  Op.rect rc.1 rc.2.1 rc.2.2.1 rc.2.2.2 fill

/-- PIL draw.rounded_rectangle on a rect_for_block rectangle. -/
def rrectOp (rc : ℤ × ℤ × ℤ × ℤ) (rad : ℤ) (fill : Color) : Op :=
  Op.rrect rc.1 rc.2.1 rc.2.2.1 rc.2.2.2 rad fill

/-- Embedding of draw_finder from the source: light 9 by 9 separator, dark
7 by 7 block, light 5 by 5 block, dark 3 by 3 eye, the last three with
rounded corners. -/
def draw_finder (g : Geom) (ratio : Frac) (DARK LIGHT : Color)
    (top_r left_c : ℤ) : List Op :=
  let r_band := ratio.intMul g.S
  let r_eye := (ratio.mulF fThreeHalves).intMul g.S
  [rectOp (rect_for_block g (top_r - 1) (left_c - 1) 9) LIGHT,
   rrectOp (rect_for_block g top_r left_c 7) r_band DARK,
   rrectOp (rect_for_block g (top_r + 1) (left_c + 1) 5) r_band LIGHT,
   rrectOp (rect_for_block g (top_r + 2) (left_c + 2) 3) r_eye DARK]

/-- The square-finder branch of draw_qr: the same twelve blocks as the
rounded branch, drawn as plain rectangles. -/
def squareFinderOps (g : Geom) (N : ℤ) (DARK LIGHT : Color) : List Op :=
  [rectOp (rect_for_block g (-1) (-1) 9) LIGHT,
   rectOp (rect_for_block g 0 0 7) DARK,
   rectOp (rect_for_block g 1 1 5) LIGHT,
   rectOp (rect_for_block g 2 2 3) DARK,
   rectOp (rect_for_block g (-1) (N - 8) 9) LIGHT,
   rectOp (rect_for_block g 0 (N - 7) 7) DARK,
   rectOp (rect_for_block g 1 (N - 6) 5) LIGHT,
   rectOp (rect_for_block g 2 (N - 5) 3) DARK,
   rectOp (rect_for_block g (N - 8) (-1) 9) LIGHT,
   rectOp (rect_for_block g (N - 7) 0 7) DARK,
   rectOp (rect_for_block g (N - 6) 1 5) LIGHT,
   rectOp (rect_for_block g (N - 5) 2 3) DARK]

/-- Matrix lookup m[r][c]; the matrices draw_qr receives are square. -/
def mAt (m : List (List Bool)) (r c : ℕ) : Bool := (m.getD r []).getD c false

/-- Embedding of in_finder_footprint from the source. -/
def in_finder_footprint (N r c : ℤ) : Bool :=
  decide ((-1 ≤ r ∧ r ≤ 7 ∧ -1 ≤ c ∧ c ≤ 7) ∨
    (-1 ≤ r ∧ r ≤ 7 ∧ N - 8 ≤ c ∧ c ≤ N) ∨
    (N - 8 ≤ r ∧ r ≤ N ∧ -1 ≤ c ∧ c ≤ 7))

/-- The primitive the data pass draws for the dark module (r, c): with
dot_style a circle of radius int(S * (0.5 - dot_margin)) centered at the
module center (the margin clamped to 0 .. 0.49 first), otherwise the full
module square from rect_for_block. -/
def dataOpOf (g : Geom) (dot_style : Bool) (dot_margin : Frac) (DARK : Color)
    (r c : ℕ) : Op :=
  if dot_style then
    Op.disk (g.offset + (g.B + (c : ℤ)) * g.S + g.S / 2)
      (g.offset + (g.B + (r : ℤ)) * g.S + g.S / 2)
      ((fHalf.subF (clamp dot_margin fZero fMargHi)).intMul g.S) DARK
  else rectOp (rect_for_block g (r : ℤ) (c : ℤ) 1) DARK

/-- Data-module pass of draw_qr: one dot or one square for every dark
module outside the three finder footprints (the dot radius of the source is
computed once before its loop, but it does not depend on the module). -/
def dataOps (m : List (List Bool)) (g : Geom) (dot_style : Bool)
    (dot_margin : Frac) (DARK : Color) : List Op :=
  let N := m.length
  (List.range N).flatMap (fun r => (List.range N).flatMap (fun c =>
    if mAt m r c && !in_finder_footprint (N : ℤ) (r : ℤ) (c : ℤ) then
      [dataOpOf g dot_style dot_margin DARK r c]
    else []))

/-- Failure of draw_qr: the canvas check raising ValueError, or int(s, 16)
raising ValueError inside parse_hex_rgba for a color field. -/
inductive RenderErr where
  | insufficientCanvas
  | colorError
  deriving DecidableEq, Repr

/-- Integer module pixel size S = SIZE // (N + 2 B) of draw_qr. -/
def moduleSize (SIZE N B : ℕ) : ℕ := SIZE / (N + 2 * B)

/-- Rendered symbol size render_px = (N + 2 B) * S of draw_qr. -/
def renderPx (SIZE N B : ℕ) : ℕ := (N + 2 * B) * moduleSize SIZE N B

/-- Centering offset (SIZE - render_px) // 2 of draw_qr. -/
def offsetPx (SIZE N B : ℕ) : ℕ := (SIZE - renderPx SIZE N B) / 2

/-- The geometry record draw_qr works with. -/
def geomOf (SIZE N B : ℕ) : Geom :=
  ⟨(offsetPx SIZE N B : ℤ), (B : ℤ), (moduleSize SIZE N B : ℤ)⟩

/-- Background fill of draw_qr: the rounded rectangle over the full symbol
bounding square, with radius int(finder_round_ratio * S * 2.0) when
rounded_canvas is set and 0 otherwise. -/
def bgOpOf (SIZE N B : ℕ) (rounded_canvas : Bool) (ratio : Frac)
    (LIGHT : Color) : Op :=
  let offset : ℤ := (offsetPx SIZE N B : ℤ)
  let bg_radius : ℤ :=
    if rounded_canvas then ratio.intMul ((moduleSize SIZE N B : ℤ) * 2) else 0
  Op.rrect offset offset (offset + (renderPx SIZE N B : ℤ))
    (offset + (renderPx SIZE N B : ℤ)) bg_radius LIGHT

/-- Finder pass of draw_qr: three rounded finders, or the square branch. -/
def finderOpsOf (g : Geom) (N : ℤ) (rounded_finders : Bool) (ratio : Frac)
    (DARK LIGHT : Color) : List Op :=
  if rounded_finders then
    draw_finder g ratio DARK LIGHT 0 0 ++
    draw_finder g ratio DARK LIGHT 0 (N - 7) ++
    draw_finder g ratio DARK LIGHT (N - 7) 0
  else squareFinderOps g N DARK LIGHT

/-- Hole pass of draw_qr: a background-colored rectangle or circle of size
hole_px = int(render_px * clamp(hole_percentage, 0, 0.2)) centered at the
symbol center, drawn only when hole is set and hole_percentage > 0. -/
def holeOpsOf (SIZE N B : ℕ) (hole : Bool) (pct : Frac) (shape : HoleShape)
    (LIGHT : Color) : List Op :=
  if hole && pct.posB then
    let hole_px := (clamp pct fZero fFifth).intMul (renderPx SIZE N B : ℤ)
    let cx : ℤ := (offsetPx SIZE N B : ℤ) + (renderPx SIZE N B : ℤ) / 2
    match shape with
    | HoleShape.rectangle =>
      [Op.rect (cx - hole_px / 2) (cx - hole_px / 2) (cx + hole_px / 2)
        (cx + hole_px / 2) LIGHT]
    | HoleShape.circle => [Op.disk cx cx (hole_px / 2) LIGHT]
  else []

/-- Modelled from the spec: the external PIL Image.thumbnail call, which is
not part of this repository, shrinks the decoded logo preserving its aspect
ratio so that it fits inside a max_side by max_side box, and never enlarges
it. -/
def thumbnailSize (w h max_side : ℕ) : ℕ × ℕ :=
  if w ≤ max_side ∧ h ≤ max_side then (w, h)
  else if h ≤ w then (max_side, max 1 (h * max_side / w))
  else (max 1 (w * max_side / h), max_side)

/-- Logo pass of draw_qr: when use_logo is set, logo_base64 is truthy and
the external decode succeeded, the logo is bounded by
max_side = int(SIZE * 0.20) and pasted at the symbol center; a failed
decode contributes nothing. -/
def logoOpsOf (SIZE N B : ℕ) (use_logo has_logo : Bool)
    (logo : Option (ℕ × ℕ)) : List Op :=
  if use_logo && has_logo then
    match logo with
    | some wh =>
      let max_side := (fFifth.intMul (SIZE : ℤ)).toNat
      let lw := (thumbnailSize wh.1 wh.2 max_side).1
      let lh := (thumbnailSize wh.1 wh.2 max_side).2
      let cx : ℤ := (offsetPx SIZE N B : ℤ) + (renderPx SIZE N B : ℤ) / 2
      [Op.logoOp (cx - ((lw / 2 : ℕ) : ℤ)) (cx - ((lh / 2 : ℕ) : ℤ)) lw lh]
    | none => []
  else []

/-- Embedding of draw_qr from the source, producing the trace of drawing
primitives.  The matrix comes from the external QR encoder; logo is the
externally decoded logo raster size (none when decoding fails), consumed
only when use_logo is set and logo_base64 is truthy. -/
def draw_qr (m : List (List Bool)) (req : QRRequest) (logo : Option (ℕ × ℕ)) :
    Except RenderErr (List Op) :=
  let N := m.length
  let B := req.quiet_zone_modules
  let SIZE := req.pixel_size
  if moduleSize SIZE N B < 1 then Except.error RenderErr.insufficientCanvas else
  match parse_hex_rgba req.foreground blackRGBA,
      parse_hex_rgba req.background whiteRGBA with
  | some DARK, some LIGHT =>
    Except.ok
      (bgOpOf SIZE N B req.rounded_canvas req.finder_round_ratio LIGHT ::
        (finderOpsOf (geomOf SIZE N B) (N : ℤ) req.rounded_finders
            req.finder_round_ratio DARK LIGHT ++
          dataOps m (geomOf SIZE N B) req.dot_style req.dot_margin DARK ++
          holeOpsOf SIZE N B req.hole req.hole_percentage req.hole_shape
            LIGHT ++
          logoOpsOf SIZE N B req.use_logo req.has_logo logo))
  | _, _ => Except.error RenderErr.colorError

/-- Membership of a pixel in a closed axis-aligned rectangle (PIL rectangle
fills include both corner coordinates). -/
def inClosedRect (x0 y0 x1 y1 x y : ℤ) : Prop :=
  x0 ≤ x ∧ x ≤ x1 ∧ y0 ≤ y ∧ y ≤ y1

instance (x0 y0 x1 y1 x y : ℤ) : Decidable (inClosedRect x0 y0 x1 y1 x y) :=
  inferInstanceAs (Decidable (_ ∧ _))

/-- Pixel region of a PIL rounded rectangle: the closed rectangle with the
four corner squares cut back to quarter disks of the given radius. -/
def inRoundedRect (x0 y0 x1 y1 rad x y : ℤ) : Prop :=
  inClosedRect x0 y0 x1 y1 x y ∧
  (x0 + rad ≤ x ∨ y0 + rad ≤ y ∨
    (x - (x0 + rad)) ^ 2 + (y - (y0 + rad)) ^ 2 ≤ rad ^ 2) ∧
  (x ≤ x1 - rad ∨ y0 + rad ≤ y ∨
    (x - (x1 - rad)) ^ 2 + (y - (y0 + rad)) ^ 2 ≤ rad ^ 2) ∧
  (x0 + rad ≤ x ∨ y ≤ y1 - rad ∨
    (x - (x0 + rad)) ^ 2 + (y - (y1 - rad)) ^ 2 ≤ rad ^ 2) ∧
  (x ≤ x1 - rad ∨ y ≤ y1 - rad ∨
    (x - (x1 - rad)) ^ 2 + (y - (y1 - rad)) ^ 2 ≤ rad ^ 2)

instance (x0 y0 x1 y1 rad x y : ℤ) :
    Decidable (inRoundedRect x0 y0 x1 y1 rad x y) :=
  inferInstanceAs (Decidable (_ ∧ _))

/-- Pixels written by one drawing primitive. -/
def Op.covers : Op → ℤ → ℤ → Prop
  | Op.rect x0 y0 x1 y1 _, x, y => inClosedRect x0 y0 x1 y1 x y
  | Op.rrect x0 y0 x1 y1 rad _, x, y => inRoundedRect x0 y0 x1 y1 rad x y
  | Op.disk cx cy rad _, x, y => (x - cx) ^ 2 + (y - cy) ^ 2 ≤ rad ^ 2
  | Op.logoOp x0 y0 w h, x, y =>
    x0 ≤ x ∧ x < x0 + (w : ℤ) ∧ y0 ≤ y ∧ y < y0 + (h : ℤ)

instance (op : Op) (x y : ℤ) : Decidable (op.covers x y) := by
  cases op <;> simp only [Op.covers] <;> infer_instance

/-- Effect of one primitive on one pixel.  A shape fill overwrites the pixel
with its color when it covers the pixel; the pasted logo rewrites the pixels
inside its box by alpha compositing with the decoded logo content, which is
external and enters as the blend argument. -/
def applyOp (blend : ℤ → ℤ → Color → Color) (op : Op) (x y : ℤ)
    (cur : Color) : Color :=
  if op.covers x y then
    match op with
    | Op.rect _ _ _ _ fill => fill
    | Op.rrect _ _ _ _ _ fill => fill
    | Op.disk _ _ _ fill => fill
    | Op.logoOp _ _ _ _ => blend x y cur
  else cur

/-- Color of one pixel after a list of primitives runs over a start value. -/
def evalOps (blend : ℤ → ℤ → Color → Color) : List Op → ℤ → ℤ → Color → Color
  | [], _, _, cur => cur
  | op :: rest, x, y, cur => evalOps blend rest x y (applyOp blend op x y cur)

/-- Color of one pixel of the finished raster: the trace runs over the
transparent canvas draw_qr starts from. -/
def pixel (blend : ℤ → ℤ → Color → Color) (ops : List Op) (x y : ℤ) : Color :=
  evalOps blend ops x y transparent

/-- Blend stand-in for renders without a logo primitive. -/
def blendNone : ℤ → ℤ → Color → Color := fun _ _ cur => cur

theorem evalOps_append (blend : ℤ → ℤ → Color → Color) (l1 l2 : List Op)
    (x y : ℤ) (cur : Color) :
    evalOps blend (l1 ++ l2) x y cur = evalOps blend l2 x y (evalOps blend l1 x y cur) := by
  induction l1 generalizing cur with
  | nil => rfl
  | cons op rest ih => simp [evalOps, ih]

theorem evalOps_of_not_covers (blend : ℤ → ℤ → Color → Color) (l : List Op)
    (x y : ℤ) (cur : Color) (h : ∀ op ∈ l, ¬ op.covers x y) :
    evalOps blend l x y cur = cur := by
  induction l generalizing cur with
  | nil => rfl
  | cons op rest ih =>
    have hop : ¬ op.covers x y := h op (List.mem_cons_self op rest)
    simp only [evalOps, applyOp, if_neg hop]
    exact ih cur (fun o ho => h o (List.mem_cons_of_mem op ho))

/-- A 21 by 21 matrix whose only dark module is (r, c). -/
def unitMatrix (r c : ℕ) : List (List Bool) :=
  (List.range 21).map (fun i => (List.range 21).map (fun j => i == r && j == c))

example : (unitMatrix 10 10).length = 21 := by decide

example : mAt (unitMatrix 10 10) 10 10 = true := by decide

example : mAt (unitMatrix 10 10) 3 9 = false := by decide

deriving instance DecidableEq for Except

theorem draw_qr_ok_eq (m : List (List Bool)) (req : QRRequest)
    (logo : Option (ℕ × ℕ)) (DARK LIGHT : Color)
    (hS : 1 ≤ moduleSize req.pixel_size m.length req.quiet_zone_modules)
    (hf : parse_hex_rgba req.foreground blackRGBA = some DARK)
    (hb : parse_hex_rgba req.background whiteRGBA = some LIGHT) :
    draw_qr m req logo = Except.ok
      (bgOpOf req.pixel_size m.length req.quiet_zone_modules
          req.rounded_canvas req.finder_round_ratio LIGHT ::
        (finderOpsOf (geomOf req.pixel_size m.length req.quiet_zone_modules)
            (m.length : ℤ) req.rounded_finders req.finder_round_ratio DARK
            LIGHT ++
          dataOps m (geomOf req.pixel_size m.length req.quiet_zone_modules)
            req.dot_style req.dot_margin DARK ++
          holeOpsOf req.pixel_size m.length req.quiet_zone_modules req.hole
            req.hole_percentage req.hole_shape LIGHT ++
          logoOpsOf req.pixel_size m.length req.quiet_zone_modules
            req.use_logo req.has_logo logo)) := by
  unfold draw_qr
  rw [if_neg (by omega), hf, hb]

theorem draw_qr_insufficient_iff (m : List (List Bool)) (req : QRRequest)
    (logo : Option (ℕ × ℕ)) :
    draw_qr m req logo = Except.error RenderErr.insufficientCanvas ↔
      moduleSize req.pixel_size m.length req.quiet_zone_modules < 1 := by
  unfold draw_qr
  by_cases hS : moduleSize req.pixel_size m.length req.quiet_zone_modules < 1
  · simp [hS]
  · rw [if_neg hS]
    rcases hf : parse_hex_rgba req.foreground blackRGBA with _ | DARK <;>
      rcases hb : parse_hex_rgba req.background whiteRGBA with _ | LIGHT <;>
        simp [hS]

theorem draw_qr_colorError_iff (m : List (List Bool)) (req : QRRequest)
    (logo : Option (ℕ × ℕ)) :
    draw_qr m req logo = Except.error RenderErr.colorError ↔
      (1 ≤ moduleSize req.pixel_size m.length req.quiet_zone_modules ∧
        (parse_hex_rgba req.foreground blackRGBA = none ∨
          parse_hex_rgba req.background whiteRGBA = none)) := by
  unfold draw_qr
  by_cases hS : moduleSize req.pixel_size m.length req.quiet_zone_modules < 1
  · rw [if_pos hS]
    constructor
    · intro h
      simp at h
    · rintro ⟨h1, _⟩
      omega
  · rw [if_neg hS]
    rcases hf : parse_hex_rgba req.foreground blackRGBA with _ | DARK <;>
      rcases hb : parse_hex_rgba req.background whiteRGBA with _ | LIGHT <;>
        simp [hS] <;> omega

theorem draw_qr_ok_iff (m : List (List Bool)) (req : QRRequest)
    (logo : Option (ℕ × ℕ)) :
    (∃ t, draw_qr m req logo = Except.ok t) ↔
      (1 ≤ moduleSize req.pixel_size m.length req.quiet_zone_modules ∧
        parse_hex_rgba req.foreground blackRGBA ≠ none ∧
        parse_hex_rgba req.background whiteRGBA ≠ none) := by
  unfold draw_qr
  by_cases hS : moduleSize req.pixel_size m.length req.quiet_zone_modules < 1
  · simp only [if_pos hS]
    constructor
    · rintro ⟨t, ht⟩
      simp at ht
    · rintro ⟨h1, _⟩
      omega
  · rw [if_neg hS]
    rcases hf : parse_hex_rgba req.foreground blackRGBA with _ | DARK <;>
      rcases hb : parse_hex_rgba req.background whiteRGBA with _ | LIGHT <;>
        simp [hS] <;> omega

/-- A request whose foreground is the three-character non-hex string zzz. -/
def reqBadColor : QRRequest := { foreground := "zzz".toList }

/-- C3 counterexample: the renderer has a second failure mode.  On a 21 by
21 matrix with the default style but foreground string zzz, the module size
is 37, which is not below 1, yet draw_qr fails: int(s, 16) raises ValueError
inside parse_hex_rgba (line 22 of the source), so rendering does not fail
with InsufficientCanvasError if and only if the module size is below 1. -/
theorem C3_counterexample :
    draw_qr (unitMatrix 10 10) reqBadColor none =
        Except.error RenderErr.colorError ∧
      1 ≤ moduleSize 1080 21 4 ∧
      draw_qr (unitMatrix 10 10) reqBadColor none ≠
        Except.error RenderErr.insufficientCanvas := by decide

/-- C3 (amended): with the validated quiet zone (at least 1 module),
rendering fails with InsufficientCanvasError exactly when
floor(canvasSizePx / (N + 2 quietZoneModules)) < 1; the only other failure
of the renderer is the ValueError raised by hex parsing when a color string
strips to 3, 6 or 8 characters that are not all hex digits, and rendering
succeeds exactly when neither failure occurs. -/
theorem C3_failure_characterization (m : List (List Bool)) (req : QRRequest)
    (logo : Option (ℕ × ℕ)) (hB : 1 ≤ req.quiet_zone_modules) :
    (draw_qr m req logo = Except.error RenderErr.insufficientCanvas ↔
      moduleSize req.pixel_size m.length req.quiet_zone_modules < 1) ∧
    (draw_qr m req logo = Except.error RenderErr.colorError ↔
      (1 ≤ moduleSize req.pixel_size m.length req.quiet_zone_modules ∧
        (parse_hex_rgba req.foreground blackRGBA = none ∨
          parse_hex_rgba req.background whiteRGBA = none))) ∧
    ((∃ t, draw_qr m req logo = Except.ok t) ↔
      (1 ≤ moduleSize req.pixel_size m.length req.quiet_zone_modules ∧
        parse_hex_rgba req.foreground blackRGBA ≠ none ∧
        parse_hex_rgba req.background whiteRGBA ≠ none)) :=
  ⟨draw_qr_insufficient_iff m req logo, draw_qr_colorError_iff m req logo,
    draw_qr_ok_iff m req logo⟩

/-- Witness for C3_failure_characterization at the default request on a
21 by 21 matrix: the quiet zone hypothesis holds and the insufficient-canvas
equivalence is discharged there. -/
theorem C3_failure_characterization_witness :
    1 ≤ defaultReq.quiet_zone_modules ∧
      (draw_qr (unitMatrix 10 10) defaultReq none =
          Except.error RenderErr.insufficientCanvas ↔
        moduleSize 1080 21 4 < 1) :=
  ⟨by decide,
    (C3_failure_characterization (unitMatrix 10 10) defaultReq none
      (by decide)).1⟩

theorem int2hex_of_hex (c0 c1 : Char) (h0 : isHexDig c0) (h1 : isHexDig c1) :
    int2hex c0 c1 = some (16 * hexVal c0 + hexVal c1) := by
  simp [int2hex, h0, h1]

/-- C6 counterexample: the string zzz strips to three characters, so
parse_hex_rgba takes the 3-digit branch, and int(s, 16) raises ValueError on
the non-hex digits instead of returning the caller-supplied default. -/
theorem C6_counterexample :
    parse_hex_rgba "zzz".toList whiteRGBA = none ∧
      parse_hex_rgba "zzz".toList whiteRGBA ≠ some whiteRGBA := by decide

/-- C6 (amended): after Python strip() removes surrounding whitespace and
lstrip removes every leading hash sign, a stripped value of a length other
than 3, 6 or 8 returns the caller-supplied default; a stripped value of 3,
6 or 8 hex digits (case-insensitive) decodes as claimed, with doubled digits
and alpha 255 for the short forms; but a stripped value of length 3, 6 or 8
that is not pure hex raises ValueError out of the parser (none) instead of
returning the default. -/
theorem C6_parse_characterization (value : List Char) (default : Color) :
    (((lstripHash (pyStrip value)).length ≠ 3 ∧
        (lstripHash (pyStrip value)).length ≠ 6 ∧
        (lstripHash (pyStrip value)).length ≠ 8) →
      parse_hex_rgba value default = some default) ∧
    (∀ c0 c1 c2, lstripHash (pyStrip value) = [c0, c1, c2] →
      isHexDig c0 → isHexDig c1 → isHexDig c2 →
      parse_hex_rgba value default =
        some ⟨17 * hexVal c0, 17 * hexVal c1, 17 * hexVal c2, 255⟩) ∧
    (∀ c0 c1 c2 c3 c4 c5,
      lstripHash (pyStrip value) = [c0, c1, c2, c3, c4, c5] →
      isHexDig c0 → isHexDig c1 → isHexDig c2 → isHexDig c3 → isHexDig c4 →
      isHexDig c5 →
      parse_hex_rgba value default =
        some ⟨16 * hexVal c0 + hexVal c1, 16 * hexVal c2 + hexVal c3,
          16 * hexVal c4 + hexVal c5, 255⟩) ∧
    (∀ c0 c1 c2 c3 c4 c5 c6 c7,
      lstripHash (pyStrip value) = [c0, c1, c2, c3, c4, c5, c6, c7] →
      isHexDig c0 → isHexDig c1 → isHexDig c2 → isHexDig c3 → isHexDig c4 →
      isHexDig c5 → isHexDig c6 → isHexDig c7 →
      parse_hex_rgba value default =
        some ⟨16 * hexVal c0 + hexVal c1, 16 * hexVal c2 + hexVal c3,
          16 * hexVal c4 + hexVal c5, 16 * hexVal c6 + hexVal c7⟩) := by
  refine ⟨?_, ?_, ?_, ?_⟩
  · intro hlen
    unfold parse_hex_rgba
    rcases hv : lstripHash (pyStrip value) with _ | ⟨a, _ | ⟨b, _ | ⟨c,
      _ | ⟨d, _ | ⟨e, _ | ⟨f, _ | ⟨g2, _ | ⟨h2, rest⟩⟩⟩⟩⟩⟩⟩⟩ <;>
      rw [hv] at hlen <;> simp_all
  · intro c0 c1 c2 hv h0 h1 h2
    have e : parse_hex_rgba value default = hex3 c0 c1 c2 := by
      unfold parse_hex_rgba
      rw [hv]
    rw [e]
    unfold hex3
    rw [int2hex_of_hex c0 c0 h0 h0, int2hex_of_hex c1 c1 h1 h1,
      int2hex_of_hex c2 c2 h2 h2]
    have e0 : 16 * hexVal c0 + hexVal c0 = 17 * hexVal c0 := by ring
    have e1 : 16 * hexVal c1 + hexVal c1 = 17 * hexVal c1 := by ring
    have e2 : 16 * hexVal c2 + hexVal c2 = 17 * hexVal c2 := by ring
    rw [e0, e1, e2]
  · intro c0 c1 c2 c3 c4 c5 hv h0 h1 h2 h3 h4 h5
    have e : parse_hex_rgba value default = hex6 c0 c1 c2 c3 c4 c5 := by
      unfold parse_hex_rgba
      rw [hv]
    rw [e]
    unfold hex6
    rw [int2hex_of_hex c0 c1 h0 h1, int2hex_of_hex c2 c3 h2 h3,
      int2hex_of_hex c4 c5 h4 h5]
  · intro c0 c1 c2 c3 c4 c5 c6 c7 hv h0 h1 h2 h3 h4 h5 h6 h7
    have e : parse_hex_rgba value default = hex8 c0 c1 c2 c3 c4 c5 c6 c7 := by
      unfold parse_hex_rgba
      rw [hv]
    rw [e]
    unfold hex8
    rw [int2hex_of_hex c0 c1 h0 h1, int2hex_of_hex c2 c3 h2 h3,
      int2hex_of_hex c4 c5 h4 h5, int2hex_of_hex c6 c7 h6 h7]

/-- Witness for C6_parse_characterization: the spec scenarios.  The string
fff with a hash strips to three hex digits and decodes to opaque white, the
string 112233AA decodes with alpha 170, and the invalid string nonsense!
has stripped length 9 and returns the caller default unchanged. -/
theorem C6_parse_characterization_witness :
    parse_hex_rgba "#fff".toList blackRGBA = some ⟨255, 255, 255, 255⟩ ∧
      parse_hex_rgba "#112233AA".toList blackRGBA = some ⟨17, 34, 51, 170⟩ ∧
      parse_hex_rgba "nonsense!".toList whiteRGBA = some whiteRGBA := by
  refine ⟨?_, ?_, ?_⟩
  · have h := (C6_parse_characterization "#fff".toList blackRGBA).2.1
      'f' 'f' 'f' (by decide) (by decide) (by decide) (by decide)
    rw [h]
    decide
  · have h := (C6_parse_characterization "#112233AA".toList blackRGBA).2.2.2
      '1' '1' '2' '2' '3' '3' 'A' 'A' (by decide) (by decide) (by decide)
      (by decide) (by decide) (by decide) (by decide) (by decide) (by decide)
    rw [h]
    decide
  · exact (C6_parse_characterization "nonsense!".toList whiteRGBA).1
      (by decide)

/-- Bounding rectangle of a drawing primitive. -/
def opRect : Op → ℤ × ℤ × ℤ × ℤ
  | Op.rect x0 y0 x1 y1 _ => (x0, y0, x1, y1)
  | Op.rrect x0 y0 x1 y1 _ _ => (x0, y0, x1, y1)
  | Op.disk cx cy rad _ => (cx - rad, cy - rad, cx + rad, cy + rad)
  | Op.logoOp x0 y0 w h => (x0, y0, x0 + (w : ℤ), y0 + (h : ℤ))

/-- Fill color of a shape primitive (none for the pasted logo). -/
def opFill : Op → Option Color
  | Op.rect _ _ _ _ fill => some fill
  | Op.rrect _ _ _ _ _ fill => some fill
  | Op.disk _ _ _ fill => some fill
  | Op.logoOp _ _ _ _ => none

/-- Module rectangles of the twelve finder layers, grouped by the three
finder origins (0,0), (0, N-7), (N-7, 0): for an origin (t, l), a 9 by 9
separator at (t-1, l-1), a 7 by 7 block at (t, l), a 5 by 5 block at
(t+1, l+1) and a 3 by 3 eye at (t+2, l+2). -/
def finderLayerRects (g : Geom) (N : ℤ) : List (ℤ × ℤ × ℤ × ℤ) :=
  [((0 : ℤ), (0 : ℤ)), (0, N - 7), (N - 7, 0)].flatMap fun tl =>
    [rect_for_block g (tl.1 - 1) (tl.2 - 1) 9,
     rect_for_block g tl.1 tl.2 7,
     rect_for_block g (tl.1 + 1) (tl.2 + 1) 5,
     rect_for_block g (tl.1 + 2) (tl.2 + 2) 3]

/-- Layer colors of the twelve finder layers: for each finder, light
separator, dark 7 by 7, light 5 by 5, dark 3 by 3 eye. -/
def finderLayerFills (DARK LIGHT : Color) : List (Option Color) :=
  [some LIGHT, some DARK, some LIGHT, some DARK,
   some LIGHT, some DARK, some LIGHT, some DARK,
   some LIGHT, some DARK, some LIGHT, some DARK]

theorem finderOpsOf_rects (g : Geom) (N : ℤ) (b : Bool) (ratio : Frac)
    (DARK LIGHT : Color) :
    (finderOpsOf g N b ratio DARK LIGHT).map opRect = finderLayerRects g N := by
  cases b <;>
    simp [finderOpsOf, draw_finder, squareFinderOps, rectOp, rrectOp,
      opRect, finderLayerRects, rect_for_block] <;>
    ring_nf <;> simp

theorem finderOpsOf_fills (g : Geom) (N : ℤ) (b : Bool) (ratio : Frac)
    (DARK LIGHT : Color) :
    (finderOpsOf g N b ratio DARK LIGHT).map opFill =
      finderLayerFills DARK LIGHT := by
  cases b <;>
    simp [finderOpsOf, draw_finder, squareFinderOps, rectOp, rrectOp,
      opFill, finderLayerFills]

/-- C4: a successful render is the background, then exactly the three
finder patterns at module origins (0,0), (0, N-7) and (N-7, 0) -- each as a
light 9 by 9 separator at (top-1, left-1), a dark 7 by 7 block, a light
5 by 5 block inset by one, and a dark 3 by 3 eye inset by two, in this
order -- then the data modules, hole and logo.  The module footprints of
the twelve layers are the same whether rounded_finders is true or false,
and the finder primitives always precede the data-module primitives. -/
theorem C4_finder_structure (m : List (List Bool)) (req : QRRequest)
    (logo : Option (ℕ × ℕ)) (DARK LIGHT : Color)
    (hS : 1 ≤ moduleSize req.pixel_size m.length req.quiet_zone_modules)
    (hf : parse_hex_rgba req.foreground blackRGBA = some DARK)
    (hb : parse_hex_rgba req.background whiteRGBA = some LIGHT) :
    draw_qr m req logo = Except.ok
      (bgOpOf req.pixel_size m.length req.quiet_zone_modules
          req.rounded_canvas req.finder_round_ratio LIGHT ::
        (finderOpsOf (geomOf req.pixel_size m.length req.quiet_zone_modules)
            (m.length : ℤ) req.rounded_finders req.finder_round_ratio DARK
            LIGHT ++
          dataOps m (geomOf req.pixel_size m.length req.quiet_zone_modules)
            req.dot_style req.dot_margin DARK ++
          holeOpsOf req.pixel_size m.length req.quiet_zone_modules req.hole
            req.hole_percentage req.hole_shape LIGHT ++
          logoOpsOf req.pixel_size m.length req.quiet_zone_modules
            req.use_logo req.has_logo logo)) ∧
    (∀ b : Bool,
      (finderOpsOf (geomOf req.pixel_size m.length req.quiet_zone_modules)
          (m.length : ℤ) b req.finder_round_ratio DARK LIGHT).map opRect =
        finderLayerRects
          (geomOf req.pixel_size m.length req.quiet_zone_modules)
          (m.length : ℤ)) ∧
    (∀ b : Bool,
      (finderOpsOf (geomOf req.pixel_size m.length req.quiet_zone_modules)
          (m.length : ℤ) b req.finder_round_ratio DARK LIGHT).map opFill =
        finderLayerFills DARK LIGHT) :=
  ⟨draw_qr_ok_eq m req logo DARK LIGHT hS hf hb,
    fun b => finderOpsOf_rects _ _ b _ DARK LIGHT,
    fun b => finderOpsOf_fills _ _ b _ DARK LIGHT⟩

/-- Witness for C4_finder_structure at the default request on a 21 by 21
matrix: the square and the rounded branch have the same twelve layer
footprints there. -/
theorem C4_finder_structure_witness :
    (finderOpsOf (geomOf 1080 21 4) 21 false defaultReq.finder_round_ratio
        blackRGBA whiteRGBA).map opRect =
      finderLayerRects (geomOf 1080 21 4) 21 ∧
    (finderOpsOf (geomOf 1080 21 4) 21 true defaultReq.finder_round_ratio
        blackRGBA whiteRGBA).map opRect =
      finderLayerRects (geomOf 1080 21 4) 21 :=
  ⟨(C4_finder_structure (unitMatrix 10 10) defaultReq none blackRGBA
      whiteRGBA (by decide) (by decide) (by decide)).2.1 false,
    (C4_finder_structure (unitMatrix 10 10) defaultReq none blackRGBA
      whiteRGBA (by decide) (by decide) (by decide)).2.1 true⟩

/-- Rational value of an embedded fraction. -/
def fracVal (f : Frac) : ℚ := (f.num : ℚ) / (f.den : ℚ)

theorem intMul_eq_floor (f : Frac) (k : ℤ) (h : 0 ≤ f.num * k) :
    f.intMul k = ⌊fracVal f * (k : ℚ)⌋ := by
  have hd : (0 : ℤ) < f.den := f.pos
  have htd : ((f.den.toNat : ℕ) : ℤ) = f.den := Int.toNat_of_nonneg hd.le
  have hcast : ((f.den.toNat : ℕ) : ℚ) = ((f.den : ℤ) : ℚ) := by
    exact_mod_cast htd
  have h2 : fracVal f * (k : ℚ) =
      ((f.num * k : ℤ) : ℚ) / ((f.den.toNat : ℕ) : ℚ) := by
    rw [fracVal, div_mul_eq_mul_div, hcast]
    push_cast
    ring
  rw [h2, Rat.floor_intCast_div_natCast, Frac.intMul,
    Int.tdiv_eq_ediv h hd.le, htd]

theorem clamp_margin_bounds (v : Frac) :
    0 ≤ (clamp v fZero fMargHi).num ∧
      (clamp v fZero fMargHi).num * 100 ≤ 49 * (clamp v fZero fMargHi).den := by
  have hv := v.pos
  simp only [clamp, Frac.maxF, Frac.minF, Frac.leB, decide_eq_true_eq, fZero,
    fMargHi]
  split_ifs <;> simp_all <;> omega

theorem clamp_fifth_bounds (v : Frac) :
    0 ≤ (clamp v fZero fFifth).num ∧
      (clamp v fZero fFifth).num * 5 ≤ (clamp v fZero fFifth).den := by
  have hv := v.pos
  simp only [clamp, Frac.maxF, Frac.minF, Frac.leB, decide_eq_true_eq, fZero,
    fFifth]
  split_ifs <;> simp_all <;> omega

/-- Round to nearest, which is what the claim says the radii use. -/
def qround (q : ℚ) : ℤ := ⌊q + 1 / 2⌋

/-- C5 counterexample: on the default render of a 21 by 21 matrix the
module size is 37 and finder_round_ratio is 0.45, so the claimed band
radius round(0.45 * 37) = round(16.65) is 17; but the trace holds the
7 by 7 finder layer with radius int(0.45 * 37) = 16, because the source
truncates with int() instead of rounding to nearest. -/
theorem C5_counterexample :
    Op.rrect 151 151 410 410 16 blackRGBA ∈
        (draw_qr (unitMatrix 10 10) defaultReq none).toOption.getD [] ∧
      qround (fracVal defaultReq.finder_round_ratio * (37 : ℚ)) = 17 ∧
      (16 : ℤ) ≠ 17 := by
  refine ⟨by decide, ?_, by decide⟩
  have hr : defaultReq.finder_round_ratio = ⟨9, 20, by decide⟩ := rfl
  have hval : fracVal defaultReq.finder_round_ratio * (37 : ℚ) = 333 / 20 := by
    rw [hr]
    norm_num [fracVal]
  rw [qround, hval]
  norm_num [Int.floor_eq_iff]

/-- C5 (amended): every radius is the truncation (floor, on the validated
non-negative ranges) of the stated expression, not round-to-nearest: the
7 by 7 and 5 by 5 finder layers carry radius floor(ratio * S), the 3 by 3
eye carries floor(ratio * 1.5 * S), the rounded canvas corner radius is
floor(ratio * S * 2), and the dot radius is floor(S * (0.5 - dotMargin))
with dotMargin clamped to the interval from 0 to 0.49. -/
theorem C5_radii_floor (g : Geom) (ratio dm : Frac) (DARK LIGHT : Color)
    (t l : ℤ) (SIZE N B : ℕ) (hratio : 0 ≤ ratio.num) (hS : 0 ≤ g.S) :
    (draw_finder g ratio DARK LIGHT t l =
      [rectOp (rect_for_block g (t - 1) (l - 1) 9) LIGHT,
       rrectOp (rect_for_block g t l 7) ⌊fracVal ratio * (g.S : ℚ)⌋ DARK,
       rrectOp (rect_for_block g (t + 1) (l + 1) 5)
         ⌊fracVal ratio * (g.S : ℚ)⌋ LIGHT,
       rrectOp (rect_for_block g (t + 2) (l + 2) 3)
         ⌊fracVal ratio * (3 / 2) * (g.S : ℚ)⌋ DARK]) ∧
    (bgOpOf SIZE N B true ratio LIGHT =
      Op.rrect (offsetPx SIZE N B : ℤ) (offsetPx SIZE N B : ℤ)
        ((offsetPx SIZE N B : ℤ) + (renderPx SIZE N B : ℤ))
        ((offsetPx SIZE N B : ℤ) + (renderPx SIZE N B : ℤ))
        ⌊fracVal ratio * (moduleSize SIZE N B : ℚ) * 2⌋ LIGHT) ∧
    (0 ≤ (clamp dm fZero fMargHi).num ∧
      (clamp dm fZero fMargHi).num * 100 ≤ 49 * (clamp dm fZero fMargHi).den) ∧
    ((fHalf.subF (clamp dm fZero fMargHi)).intMul g.S =
      ⌊(g.S : ℚ) * (1 / 2 - fracVal (clamp dm fZero fMargHi))⌋) := by
  have hden := ratio.pos
  refine ⟨?_, ?_, clamp_margin_bounds dm, ?_⟩
  · have hband : ratio.intMul g.S = ⌊fracVal ratio * (g.S : ℚ)⌋ :=
      intMul_eq_floor ratio g.S (mul_nonneg hratio hS)
    have heyenum : (ratio.mulF fThreeHalves).num = ratio.num * 3 := rfl
    have heye : (ratio.mulF fThreeHalves).intMul g.S =
        ⌊fracVal ratio * (3 / 2) * (g.S : ℚ)⌋ := by
      rw [intMul_eq_floor (ratio.mulF fThreeHalves) g.S
        (by rw [heyenum]; positivity)]
      congr 1
      have : fracVal (ratio.mulF fThreeHalves) = fracVal ratio * (3 / 2) := by
        simp only [fracVal, Frac.mulF, fThreeHalves]
        push_cast
        have hne : (ratio.den : ℚ) ≠ 0 := by
          exact_mod_cast ratio.pos.ne.symm
        field_simp
      rw [this]
    rw [draw_finder, hband, heye]
  · have : ratio.intMul ((moduleSize SIZE N B : ℤ) * 2) =
        ⌊fracVal ratio * (moduleSize SIZE N B : ℚ) * 2⌋ := by
      rw [intMul_eq_floor ratio ((moduleSize SIZE N B : ℤ) * 2)
        (by positivity)]
      congr 1
      push_cast
      ring
    rw [bgOpOf, if_pos rfl, this]
  · obtain ⟨hc0, hc1⟩ := clamp_margin_bounds dm
    have hcd := (clamp dm fZero fMargHi).pos
    have hnum : 0 ≤ (fHalf.subF (clamp dm fZero fMargHi)).num := by
      simp only [Frac.subF, fHalf]
      omega
    rw [intMul_eq_floor _ g.S (mul_nonneg hnum hS)]
    congr 1
    simp only [fracVal, Frac.subF, fHalf]
    have hd0 : ((clamp dm fZero fMargHi).den : ℚ) ≠ 0 := by
      exact_mod_cast hcd.ne.symm
    push_cast
    field_simp
    ring

/-- Witness for C5_radii_floor on the default style of a 21 by 21 render
(module size 37, ratio 0.45, margin 0.18): the dot radius equation is
discharged there. -/
theorem C5_radii_floor_witness :
    (0 : ℤ) ≤ 9 ∧ (0 : ℤ) ≤ (geomOf 1080 21 4).S ∧
      ((fHalf.subF (clamp ⟨9, 50, by decide⟩ fZero fMargHi)).intMul
          (geomOf 1080 21 4).S =
        ⌊((geomOf 1080 21 4).S : ℚ) *
          (1 / 2 - fracVal (clamp ⟨9, 50, by decide⟩ fZero fMargHi))⌋) :=
  ⟨by decide, by decide,
    (C5_radii_floor (geomOf 1080 21 4) ⟨9, 20, by decide⟩ ⟨9, 50, by decide⟩
      blackRGBA whiteRGBA 0 0 1080 21 4 (by decide) (by decide)).2.2.2⟩

/-- Membership of a pixel rectangle in the image of the block mapping. -/
def inBlockImage (g : Geom) (rc : ℤ × ℤ × ℤ × ℤ) : Prop :=
  ∃ r0 c0 w, rect_for_block g r0 c0 w = rc

/-- C1 counterexample: on the default render of a 21 by 21 matrix whose
only dark module is (10, 10), the data pass draws the dot
Op.disk 539 539 11, whose bounding rectangle starts at x = 528; every
rectangle of the block mapping starts at x = 3 + 37 k, and 528 - 3 = 525
is not a multiple of 37, so this drawing step does not use a rectangle
produced by the mapping. -/
theorem C1_counterexample :
    Op.disk 539 539 11 blackRGBA ∈
        (draw_qr (unitMatrix 10 10) defaultReq none).toOption.getD [] ∧
      ¬ inBlockImage (geomOf 1080 21 4)
          (opRect (Op.disk 539 539 11 blackRGBA)) := by
  constructor
  · decide
  · rintro ⟨r0, c0, w, hw⟩
    have hg : geomOf 1080 21 4 = ⟨3, 4, 37⟩ := by decide
    rw [hg] at hw
    simp only [rect_for_block, opRect, Prod.ext_iff] at hw
    omega

theorem mem_dataOps_iff (m : List (List Bool)) (g : Geom) (ds : Bool)
    (dm : Frac) (DARK : Color) (op : Op) :
    op ∈ dataOps m g ds dm DARK ↔
      ∃ r c : ℕ, r < m.length ∧ c < m.length ∧ mAt m r c ∧
        ¬ in_finder_footprint (m.length : ℤ) (r : ℤ) (c : ℤ) ∧
        op = dataOpOf g ds dm DARK r c := by
  unfold dataOps
  simp only [List.mem_flatMap, List.mem_range]
  constructor
  · rintro ⟨r, hr, c, hc, hmem⟩
    by_cases hcond :
        (mAt m r c && !in_finder_footprint (m.length : ℤ) (r : ℤ) (c : ℤ)) = true
    · rw [if_pos hcond] at hmem
      simp only [List.mem_singleton] at hmem
      simp only [Bool.and_eq_true, Bool.not_eq_true'] at hcond
      exact ⟨r, c, hr, hc, hcond.1, by simp [hcond.2], hmem⟩
    · rw [if_neg hcond] at hmem
      simp at hmem
  · rintro ⟨r, c, hr, hc, hm, hfp, rfl⟩
    refine ⟨r, hr, c, hc, ?_⟩
    rw [if_pos]
    · simp
    · simp only [Bool.and_eq_true, Bool.not_eq_true']
      exact ⟨hm, by simpa using hfp⟩

theorem finderLayerRects_in_image (g : Geom) (N : ℤ) :
    ∀ rc ∈ finderLayerRects g N, inBlockImage g rc := by
  intro rc hrc
  simp only [finderLayerRects, List.mem_flatMap, List.mem_cons,
    List.mem_singleton, List.not_mem_nil, or_false] at hrc
  obtain ⟨tl, htl, hmem⟩ := hrc
  rcases hmem with h | h | h | h <;> exact ⟨_, _, _, h.symm⟩

theorem finderOps_in_image (g : Geom) (N : ℤ) (b : Bool) (ratio : Frac)
    (DARK LIGHT : Color) :
    ∀ op ∈ finderOpsOf g N b ratio DARK LIGHT, inBlockImage g (opRect op) := by
  intro op hop
  have h1 : opRect op ∈ (finderOpsOf g N b ratio DARK LIGHT).map opRect :=
    List.mem_map_of_mem opRect hop
  rw [finderOpsOf_rects] at h1
  exact finderLayerRects_in_image g N (opRect op) h1

theorem renderPx_cast (SIZE N B : ℕ) :
    (renderPx SIZE N B : ℤ) =
      ((N : ℤ) + 2 * (B : ℤ)) * (moduleSize SIZE N B : ℤ) := by
  unfold renderPx
  push_cast
  ring

theorem bgOp_rect_in_image (SIZE N B : ℕ) (rc : Bool) (ratio : Frac)
    (LIGHT : Color) :
    opRect (bgOpOf SIZE N B rc ratio LIGHT) =
      rect_for_block (geomOf SIZE N B) (-(B : ℤ)) (-(B : ℤ))
        ((N : ℤ) + 2 * (B : ℤ)) := by
  simp only [opRect, bgOpOf, rect_for_block, geomOf, Prod.ext_iff]
  rw [renderPx_cast]
  refine ⟨by ring, by ring, by ring, by ring⟩

/-- C1 (amended): a successful render computes
moduleSize = floor(S / (N + 2 B)), renderedPx = (N + 2 B) * moduleSize and
offset = floor((S - renderedPx) / 2); rect_for_block maps (row, col, width)
to exactly the claimed rectangle; and the background and the twelve finder
layers and every square-style data module use rectangles produced by this
mapping.  Dot-style data modules, however, are circles whose centers are
computed from offset and moduleSize directly (module center, x0 plus
moduleSize // 2); their bounding rectangles are in general not rectangles
of the mapping, so not every drawing step uses a mapping rectangle. -/
theorem C1_geometry (m : List (List Bool)) (req : QRRequest)
    (logo : Option (ℕ × ℕ)) (DARK LIGHT : Color)
    (hS : 1 ≤ moduleSize req.pixel_size m.length req.quiet_zone_modules)
    (hf : parse_hex_rgba req.foreground blackRGBA = some DARK)
    (hb : parse_hex_rgba req.background whiteRGBA = some LIGHT) :
    (moduleSize req.pixel_size m.length req.quiet_zone_modules =
        req.pixel_size / (m.length + 2 * req.quiet_zone_modules) ∧
      renderPx req.pixel_size m.length req.quiet_zone_modules =
        (m.length + 2 * req.quiet_zone_modules) *
          moduleSize req.pixel_size m.length req.quiet_zone_modules ∧
      offsetPx req.pixel_size m.length req.quiet_zone_modules =
        (req.pixel_size -
          renderPx req.pixel_size m.length req.quiet_zone_modules) / 2) ∧
    (∀ r0 c0 w : ℤ,
      rect_for_block (geomOf req.pixel_size m.length req.quiet_zone_modules)
          r0 c0 w =
        ((offsetPx req.pixel_size m.length req.quiet_zone_modules : ℤ) +
            ((req.quiet_zone_modules : ℤ) + c0) *
              (moduleSize req.pixel_size m.length req.quiet_zone_modules : ℤ),
          (offsetPx req.pixel_size m.length req.quiet_zone_modules : ℤ) +
            ((req.quiet_zone_modules : ℤ) + r0) *
              (moduleSize req.pixel_size m.length req.quiet_zone_modules : ℤ),
          (offsetPx req.pixel_size m.length req.quiet_zone_modules : ℤ) +
            ((req.quiet_zone_modules : ℤ) + c0) *
              (moduleSize req.pixel_size m.length req.quiet_zone_modules : ℤ) +
            w * (moduleSize req.pixel_size m.length req.quiet_zone_modules : ℤ),
          (offsetPx req.pixel_size m.length req.quiet_zone_modules : ℤ) +
            ((req.quiet_zone_modules : ℤ) + r0) *
              (moduleSize req.pixel_size m.length req.quiet_zone_modules : ℤ) +
            w *
              (moduleSize req.pixel_size m.length
                req.quiet_zone_modules : ℤ))) ∧
    (opRect (bgOpOf req.pixel_size m.length req.quiet_zone_modules
          req.rounded_canvas req.finder_round_ratio LIGHT) =
      rect_for_block (geomOf req.pixel_size m.length req.quiet_zone_modules)
        (-(req.quiet_zone_modules : ℤ)) (-(req.quiet_zone_modules : ℤ))
        ((m.length : ℤ) + 2 * (req.quiet_zone_modules : ℤ))) ∧
    (∀ op ∈ finderOpsOf (geomOf req.pixel_size m.length
          req.quiet_zone_modules) (m.length : ℤ) req.rounded_finders
          req.finder_round_ratio DARK LIGHT,
      inBlockImage (geomOf req.pixel_size m.length req.quiet_zone_modules)
        (opRect op)) ∧
    (req.dot_style = false →
      ∀ op ∈ dataOps m (geomOf req.pixel_size m.length
            req.quiet_zone_modules) req.dot_style req.dot_margin DARK,
        ∃ r c : ℕ,
          op = rectOp (rect_for_block (geomOf req.pixel_size m.length
            req.quiet_zone_modules) (r : ℤ) (c : ℤ) 1) DARK) ∧
    (req.dot_style = true →
      ∀ op ∈ dataOps m (geomOf req.pixel_size m.length
            req.quiet_zone_modules) req.dot_style req.dot_margin DARK,
        ∃ r c : ℕ,
          op = Op.disk
            ((geomOf req.pixel_size m.length req.quiet_zone_modules).offset +
              ((req.quiet_zone_modules : ℤ) + (c : ℤ)) *
                (moduleSize req.pixel_size m.length
                  req.quiet_zone_modules : ℤ) +
              (moduleSize req.pixel_size m.length
                req.quiet_zone_modules : ℤ) / 2)
            ((geomOf req.pixel_size m.length req.quiet_zone_modules).offset +
              ((req.quiet_zone_modules : ℤ) + (r : ℤ)) *
                (moduleSize req.pixel_size m.length
                  req.quiet_zone_modules : ℤ) +
              (moduleSize req.pixel_size m.length
                req.quiet_zone_modules : ℤ) / 2)
            ((fHalf.subF (clamp req.dot_margin fZero fMargHi)).intMul
              (moduleSize req.pixel_size m.length req.quiet_zone_modules : ℤ))
            DARK) := by
  refine ⟨⟨rfl, rfl, rfl⟩, fun r0 c0 w => rfl, bgOp_rect_in_image _ _ _ _ _ _,
    finderOps_in_image _ _ _ _ _ _, ?_, ?_⟩
  · intro hds op hop
    rw [mem_dataOps_iff] at hop
    obtain ⟨r, c, _, _, _, _, rfl⟩ := hop
    exact ⟨r, c, by simp [dataOpOf, hds]⟩
  · intro hds op hop
    rw [mem_dataOps_iff] at hop
    obtain ⟨r, c, _, _, _, _, rfl⟩ := hop
    exact ⟨r, c, by simp [dataOpOf, hds, geomOf]⟩

/-- Witness for C1_geometry at the default render of the 21 by 21 unit
matrix: the background rectangle there is the block-mapping rectangle of
the full symbol. -/
theorem C1_geometry_witness :
    opRect (bgOpOf 1080 21 4 true defaultReq.finder_round_ratio whiteRGBA) =
      rect_for_block (geomOf 1080 21 4) (-4) (-4) 29 :=
  (C1_geometry (unitMatrix 10 10) defaultReq none blackRGBA whiteRGBA
    (by decide) (by decide) (by decide)).2.2.1

theorem dot_radius_bounds (dm : Frac) (S : ℤ) (hS : 0 ≤ S) :
    0 ≤ (fHalf.subF (clamp dm fZero fMargHi)).intMul S ∧
      2 * ((fHalf.subF (clamp dm fZero fMargHi)).intMul S) ≤ S := by
  obtain ⟨h0, h1⟩ := clamp_margin_bounds dm
  have hcd : 0 < (clamp dm fZero fMargHi).den := (clamp dm fZero fMargHi).pos
  set c := clamp dm fZero fMargHi with hc
  have hnum : 0 ≤ (fHalf.subF c).num := by
    simp only [Frac.subF, fHalf]
    omega
  have hden : 0 < (fHalf.subF c).den := (fHalf.subF c).pos
  have hA : 0 ≤ (fHalf.subF c).num * S := mul_nonneg hnum hS
  constructor
  · exact Int.tdiv_nonneg hA hden.le
  · rw [Frac.intMul, Int.tdiv_eq_ediv hA hden.le]
    set q := (fHalf.subF c).num * S / (fHalf.subF c).den with hq
    have hmul : (fHalf.subF c).den * q ≤ (fHalf.subF c).num * S := by
      have h2 := Int.ediv_add_emod ((fHalf.subF c).num * S) (fHalf.subF c).den
      have h3 := Int.emod_nonneg ((fHalf.subF c).num * S) hden.ne.symm
      rw [← hq] at h2
      omega
    have hden_eq : (fHalf.subF c).den = 2 * c.den := by
      simp [Frac.subF, fHalf]
    have hnum_le : (fHalf.subF c).num ≤ c.den := by
      simp only [Frac.subF, fHalf]
      omega
    have hnumS : (fHalf.subF c).num * S ≤ c.den * S :=
      mul_le_mul_of_nonneg_right hnum_le hS
    rw [hden_eq] at hmul
    have hchain : 2 * c.den * q ≤ c.den * S := le_trans hmul hnumS
    have he : c.den * (2 * q) = 2 * c.den * q := by ring
    have h2q : c.den * (2 * q) ≤ c.den * S := by rw [he]; exact hchain
    exact le_of_mul_le_mul_left h2q hcd

theorem dataOpOf_covers_bound (g : Geom) (ds : Bool) (dm : Frac)
    (DARK : Color) (r c : ℕ) (x y : ℤ) (hS : 0 ≤ g.S)
    (h : (dataOpOf g ds dm DARK r c).covers x y) :
    g.offset + (g.B + (c : ℤ)) * g.S ≤ x ∧
      x ≤ g.offset + (g.B + (c : ℤ) + 1) * g.S ∧
      g.offset + (g.B + (r : ℤ)) * g.S ≤ y ∧
      y ≤ g.offset + (g.B + (r : ℤ) + 1) * g.S := by
  have hexc : (g.B + (c : ℤ) + 1) * g.S = (g.B + (c : ℤ)) * g.S + g.S := by
    ring
  have hexr : (g.B + (r : ℤ) + 1) * g.S = (g.B + (r : ℤ)) * g.S + g.S := by
    ring
  unfold dataOpOf at h
  by_cases hds : ds = true
  · rw [if_pos hds] at h
    simp only [Op.covers] at h
    obtain ⟨hr0, hr2⟩ := dot_radius_bounds dm g.S hS
    set r_px := (fHalf.subF (clamp dm fZero fMargHi)).intMul g.S with hrpx
    have hx2 : (x - (g.offset + (g.B + (c : ℤ)) * g.S + g.S / 2)) ^ 2 ≤
        r_px ^ 2 := by
      nlinarith [sq_nonneg (y - (g.offset + (g.B + (r : ℤ)) * g.S + g.S / 2))]
    have hy2 : (y - (g.offset + (g.B + (r : ℤ)) * g.S + g.S / 2)) ^ 2 ≤
        r_px ^ 2 := by
      nlinarith [sq_nonneg (x - (g.offset + (g.B + (c : ℤ)) * g.S + g.S / 2))]
    have hx := abs_le_of_sq_le_sq' hx2 hr0
    have hy := abs_le_of_sq_le_sq' hy2 hr0
    rw [hexc, hexr]
    omega
  · rw [if_neg hds] at h
    simp only [rectOp, rect_for_block, Op.covers, inClosedRect] at h
    rw [hexc, hexr]
    omega

theorem dataOps_covers_bound (m : List (List Bool)) (g : Geom) (ds : Bool)
    (dm : Frac) (DARK : Color) (op : Op) (x y : ℤ) (hS : 0 ≤ g.S)
    (hop : op ∈ dataOps m g ds dm DARK) (hcov : op.covers x y) :
    ∃ r c : ℕ, r < m.length ∧ c < m.length ∧ mAt m r c ∧
      ¬ in_finder_footprint (m.length : ℤ) (r : ℤ) (c : ℤ) ∧
      g.offset + (g.B + (c : ℤ)) * g.S ≤ x ∧
      x ≤ g.offset + (g.B + (c : ℤ) + 1) * g.S ∧
      g.offset + (g.B + (r : ℤ)) * g.S ≤ y ∧
      y ≤ g.offset + (g.B + (r : ℤ) + 1) * g.S := by
  rw [mem_dataOps_iff] at hop
  obtain ⟨r, c, hr, hc, hm, hfp, rfl⟩ := hop
  obtain ⟨b1, b2, b3, b4⟩ := dataOpOf_covers_bound g ds dm DARK r c x y hS hcov
  exact ⟨r, c, hr, hc, hm, hfp, b1, b2, b3, b4⟩

/-- C7: with the default style (rounded_canvas true) on any 21 by 21
matrix -- for example the one the payload Hello encodes -- nothing paints
the pixel (10, 10): the rounded background corner with radius
int(0.45 * 37 * 2) = 33 is cut around it (its distance to the corner
circle center (36, 36) exceeds 33), every finder and data primitive lies
at x, y of at least 114, and there is no hole or logo.  The pixel therefore
stays the transparent canvas value (0, 0, 0, 0), not the background white
that the claim, the spec scenario, and the repository test
test_basic_qr_generation_returns_png_base64 assert. -/
theorem C7_corner_pixel_transparent (m : List (List Bool))
    (blend : ℤ → ℤ → Color → Color) (t : List Op) (hN : m.length = 21)
    (ht : draw_qr m defaultReq none = Except.ok t) :
    pixel blend t 10 10 = transparent ∧ transparent ≠ whiteRGBA := by
  refine ⟨?_, by decide⟩
  have hS : 1 ≤ moduleSize defaultReq.pixel_size m.length
      defaultReq.quiet_zone_modules := by
    rw [hN]
    decide
  have hdec := draw_qr_ok_eq m defaultReq none blackRGBA whiteRGBA hS
    (by decide) (by decide)
  have hteq := Except.ok.inj (hdec.symm.trans ht)
  rw [← hteq]
  apply evalOps_of_not_covers
  intro op hop
  rw [hN, show defaultReq.pixel_size = 1080 from rfl,
    show defaultReq.quiet_zone_modules = 4 from rfl] at hop
  have hhole : holeOpsOf 1080 21 4 defaultReq.hole defaultReq.hole_percentage
      defaultReq.hole_shape whiteRGBA = [] := by decide
  have hlogo : logoOpsOf 1080 21 4 defaultReq.use_logo defaultReq.has_logo
      none = [] := by decide
  rw [hhole, hlogo] at hop
  simp only [List.mem_cons, List.mem_append, List.append_nil,
    List.not_mem_nil, or_false] at hop
  rcases hop with rfl | (hop | hop)
  · decide
  · have hfind : ∀ o ∈ finderOpsOf (geomOf 1080 21 4) 21
        defaultReq.rounded_finders defaultReq.finder_round_ratio blackRGBA
        whiteRGBA, ¬ o.covers 10 10 := by decide
    exact hfind op hop
  · intro hcov
    obtain ⟨r, c, hr, hc, hm, hfp, b1, b2, b3, b4⟩ :=
      dataOps_covers_bound m (geomOf 1080 21 4) defaultReq.dot_style
        defaultReq.dot_margin blackRGBA op 10 10 (by decide) hop hcov
    rw [show (geomOf 1080 21 4).offset = 3 from by decide,
      show (geomOf 1080 21 4).B = 4 from by decide,
      show (geomOf 1080 21 4).S = 37 from by decide] at b1
    have hmul : ((4 : ℤ) + (c : ℤ)) * 37 = 148 + 37 * (c : ℤ) := by ring
    omega

/-- Witness for C7_corner_pixel_transparent at the 21 by 21 unit matrix:
the default render leaves pixel (10, 10) fully transparent. -/
theorem C7_corner_pixel_transparent_witness :
    pixel blendNone
        ((draw_qr (unitMatrix 10 10) defaultReq none).toOption.getD [])
        10 10 = transparent ∧ transparent ≠ whiteRGBA :=
  C7_corner_pixel_transparent (unitMatrix 10 10) blendNone
    ((draw_qr (unitMatrix 10 10) defaultReq none).toOption.getD [])
    (by decide) (by decide)

theorem logoOpsOf_none (SIZE N B : ℕ) (ul hl : Bool) :
    logoOpsOf SIZE N B ul hl none = [] := by
  unfold logoOpsOf
  split_ifs <;> rfl

theorem logoOpsOf_no_use (SIZE N B : ℕ) (hl : Bool) (logo : Option (ℕ × ℕ)) :
    logoOpsOf SIZE N B false hl logo = [] := by
  unfold logoOpsOf
  simp

theorem draw_qr_no_logo (m : List (List Bool)) (req : QRRequest)
    (logo2 : Option (ℕ × ℕ)) :
    draw_qr m { req with use_logo := false } logo2 = draw_qr m req none := by
  unfold draw_qr
  simp only [logoOpsOf_none, logoOpsOf_no_use]

theorem thumbnailSize_le (w h ms : ℕ) (hms : 1 ≤ ms) :
    (thumbnailSize w h ms).1 ≤ ms ∧ (thumbnailSize w h ms).2 ≤ ms := by
  unfold thumbnailSize
  split_ifs with h1 h2
  · exact ⟨h1.1, h1.2⟩
  · refine ⟨le_refl ms, ?_⟩
    simp only [max_le_iff]
    refine ⟨hms, Nat.div_le_of_le_mul ?_⟩
    simpa [Nat.mul_comm] using Nat.mul_le_mul_right ms h2
  · refine ⟨?_, le_refl ms⟩
    simp only [max_le_iff]
    have hw : w ≤ h := Nat.le_of_lt (Nat.lt_of_not_le h2)
    refine ⟨hms, Nat.div_le_of_le_mul ?_⟩
    simpa [Nat.mul_comm] using Nat.mul_le_mul_right ms hw

/-- C9: a logo whose bytes the external decoder cannot read is swallowed:
the render with use_logo set and a failed decode equals the render of the
identical request without a logo, primitive for primitive.  When the
decode succeeds, the logo pass is a single paste whose size is the
thumbnail of the decoded size bounded by max_side = int(canvasSizePx * 0.2)
on both sides (at most 20 percent of the canvas), pasted at
(cx - lw // 2, cy - lh // 2) for the symbol pixel center
cx = cy = offset + renderedPx // 2. -/
theorem C9_logo_handling (m : List (List Bool)) (req : QRRequest)
    (logo2 : Option (ℕ × ℕ)) (w h SIZE N B : ℕ)
    (hms : 1 ≤ (fFifth.intMul (SIZE : ℤ)).toNat) :
    (draw_qr m { req with use_logo := false } logo2 = draw_qr m req none) ∧
    (logoOpsOf SIZE N B true true (some (w, h)) =
      [Op.logoOp
        ((offsetPx SIZE N B : ℤ) + (renderPx SIZE N B : ℤ) / 2 -
          (((thumbnailSize w h ((fFifth.intMul (SIZE : ℤ)).toNat)).1 / 2 :
            ℕ) : ℤ))
        ((offsetPx SIZE N B : ℤ) + (renderPx SIZE N B : ℤ) / 2 -
          (((thumbnailSize w h ((fFifth.intMul (SIZE : ℤ)).toNat)).2 / 2 :
            ℕ) : ℤ))
        (thumbnailSize w h ((fFifth.intMul (SIZE : ℤ)).toNat)).1
        (thumbnailSize w h ((fFifth.intMul (SIZE : ℤ)).toNat)).2]) ∧
    ((thumbnailSize w h ((fFifth.intMul (SIZE : ℤ)).toNat)).1 ≤
        (fFifth.intMul (SIZE : ℤ)).toNat ∧
      (thumbnailSize w h ((fFifth.intMul (SIZE : ℤ)).toNat)).2 ≤
        (fFifth.intMul (SIZE : ℤ)).toNat) :=
  ⟨draw_qr_no_logo m req logo2, rfl, thumbnailSize_le w h _ hms⟩

/-- Witness for C9_logo_handling: a decoded 500 by 100 logo on the default
1080 canvas is bounded by max_side 216 and pasted centered; and the failed
decode of the unit-matrix render equals the no-logo render. -/
theorem C9_logo_handling_witness :
    draw_qr (unitMatrix 10 10)
        { defaultReq with use_logo := false } (some (500, 100)) =
      draw_qr (unitMatrix 10 10) defaultReq none ∧
    (thumbnailSize 500 100 ((fFifth.intMul (1080 : ℤ)).toNat)).1 ≤
        (fFifth.intMul (1080 : ℤ)).toNat :=
  ⟨(C9_logo_handling (unitMatrix 10 10) defaultReq (some (500, 100)) 500 100
      1080 21 4 (by decide)).1,
    ((C9_logo_handling (unitMatrix 10 10) defaultReq (some (500, 100)) 500
      100 1080 21 4 (by decide)).2.2).1⟩

/-- The default request with the hole enabled but hole_percentage 0.0. -/
def reqHoleZero : QRRequest :=
  { defaultReq with hole := true, hole_percentage := ⟨0, 1, by decide⟩ }

/-- C8 counterexample: with hole enabled but hole_percentage 0, the source
skips the hole entirely (the guard also requires hole_percentage > 0), so
on a 21 by 21 matrix whose center module (10, 10) is dark, the canvas
center pixel (540, 540) of the default dot style stays the dark foreground
color, not backgroundColor. -/
theorem C8_counterexample :
    reqHoleZero.hole = true ∧
      pixel blendNone
          ((draw_qr (unitMatrix 10 10) reqHoleZero none).toOption.getD [])
          540 540 = blackRGBA ∧
      blackRGBA ≠ whiteRGBA := by decide

theorem renderPx_le (SIZE N B : ℕ) : renderPx SIZE N B ≤ SIZE := by
  unfold renderPx moduleSize
  calc (N + 2 * B) * (SIZE / (N + 2 * B))
      = SIZE / (N + 2 * B) * (N + 2 * B) := Nat.mul_comm _ _
  _ ≤ SIZE := Nat.div_mul_le_self _ _

theorem holeOpsOf_on (SIZE N B : ℕ) (pct : Frac) (shape : HoleShape)
    (LIGHT : Color) (hpos : pct.posB = true) :
    holeOpsOf SIZE N B true pct shape LIGHT =
      match shape with
      | HoleShape.rectangle =>
        [Op.rect
          ((offsetPx SIZE N B : ℤ) + (renderPx SIZE N B : ℤ) / 2 -
            (clamp pct fZero fFifth).intMul (renderPx SIZE N B : ℤ) / 2)
          ((offsetPx SIZE N B : ℤ) + (renderPx SIZE N B : ℤ) / 2 -
            (clamp pct fZero fFifth).intMul (renderPx SIZE N B : ℤ) / 2)
          ((offsetPx SIZE N B : ℤ) + (renderPx SIZE N B : ℤ) / 2 +
            (clamp pct fZero fFifth).intMul (renderPx SIZE N B : ℤ) / 2)
          ((offsetPx SIZE N B : ℤ) + (renderPx SIZE N B : ℤ) / 2 +
            (clamp pct fZero fFifth).intMul (renderPx SIZE N B : ℤ) / 2)
          LIGHT]
      | HoleShape.circle =>
        [Op.disk
          ((offsetPx SIZE N B : ℤ) + (renderPx SIZE N B : ℤ) / 2)
          ((offsetPx SIZE N B : ℤ) + (renderPx SIZE N B : ℤ) / 2)
          ((clamp pct fZero fFifth).intMul (renderPx SIZE N B : ℤ) / 2)
          LIGHT] := by
  unfold holeOpsOf
  rw [hpos]
  rfl

/-- C8 (amended): the hole is drawn only when hole is set AND the fraction
is positive; it then has size holePx = int(renderedPx * frac) with the
fraction clamped to 0 .. 0.20, is centered at the symbol pixel center
offset + renderedPx // 2, and is a background-colored circle or rectangle
according to holeShape.  The pixel at the canvas center (540, 540) equals
backgroundColor provided the hole is drawn, no logo is pasted over it, and
holePx is at least 4 (the hole center can sit one pixel off the canvas
center, so a hole of radius below 2 can miss it). -/
theorem C8_hole_masks_center (m : List (List Bool)) (req : QRRequest)
    (logo : Option (ℕ × ℕ)) (DARK LIGHT : Color)
    (blend : ℤ → ℤ → Color → Color) (t : List Op)
    (hS : 1 ≤ moduleSize req.pixel_size m.length req.quiet_zone_modules)
    (hf : parse_hex_rgba req.foreground blackRGBA = some DARK)
    (hb : parse_hex_rgba req.background whiteRGBA = some LIGHT)
    (hpix : req.pixel_size = 1080) (hhole : req.hole = true)
    (hpos : req.hole_percentage.posB = true) (hnl : req.use_logo = false)
    (hbig : 4 ≤ (clamp req.hole_percentage fZero fFifth).intMul
      (renderPx 1080 m.length req.quiet_zone_modules : ℤ))
    (ht : draw_qr m req logo = Except.ok t) :
    pixel blend t 540 540 = LIGHT ∧
      holeOpsOf 1080 m.length req.quiet_zone_modules req.hole
          req.hole_percentage req.hole_shape LIGHT =
        match req.hole_shape with
        | HoleShape.rectangle =>
          [Op.rect
            ((offsetPx 1080 m.length req.quiet_zone_modules : ℤ) +
              (renderPx 1080 m.length req.quiet_zone_modules : ℤ) / 2 -
              (clamp req.hole_percentage fZero fFifth).intMul
                (renderPx 1080 m.length req.quiet_zone_modules : ℤ) / 2)
            ((offsetPx 1080 m.length req.quiet_zone_modules : ℤ) +
              (renderPx 1080 m.length req.quiet_zone_modules : ℤ) / 2 -
              (clamp req.hole_percentage fZero fFifth).intMul
                (renderPx 1080 m.length req.quiet_zone_modules : ℤ) / 2)
            ((offsetPx 1080 m.length req.quiet_zone_modules : ℤ) +
              (renderPx 1080 m.length req.quiet_zone_modules : ℤ) / 2 +
              (clamp req.hole_percentage fZero fFifth).intMul
                (renderPx 1080 m.length req.quiet_zone_modules : ℤ) / 2)
            ((offsetPx 1080 m.length req.quiet_zone_modules : ℤ) +
              (renderPx 1080 m.length req.quiet_zone_modules : ℤ) / 2 +
              (clamp req.hole_percentage fZero fFifth).intMul
                (renderPx 1080 m.length req.quiet_zone_modules : ℤ) / 2)
            LIGHT]
        | HoleShape.circle =>
          [Op.disk
            ((offsetPx 1080 m.length req.quiet_zone_modules : ℤ) +
              (renderPx 1080 m.length req.quiet_zone_modules : ℤ) / 2)
            ((offsetPx 1080 m.length req.quiet_zone_modules : ℤ) +
              (renderPx 1080 m.length req.quiet_zone_modules : ℤ) / 2)
            ((clamp req.hole_percentage fZero fFifth).intMul
              (renderPx 1080 m.length req.quiet_zone_modules : ℤ) / 2)
            LIGHT] := by
  constructor
  · have hdec := draw_qr_ok_eq m req logo DARK LIGHT hS hf hb
    have hteq := Except.ok.inj (hdec.symm.trans ht)
    rw [← hteq]
    rw [hpix, hhole, hnl] at *
    rw [logoOpsOf_no_use, List.append_nil]
    rw [holeOpsOf_on 1080 m.length req.quiet_zone_modules
      req.hole_percentage req.hole_shape LIGHT hpos]
    have hq : renderPx 1080 m.length req.quiet_zone_modules ≤ 1080 :=
      renderPx_le 1080 m.length req.quiet_zone_modules
    set q := renderPx 1080 m.length req.quiet_zone_modules with hqdef
    set hp := (clamp req.hole_percentage fZero fFifth).intMul (q : ℤ)
      with hpdef
    have hoff : offsetPx 1080 m.length req.quiet_zone_modules =
        (1080 - q) / 2 := rfl
    set o := offsetPx 1080 m.length req.quiet_zone_modules with hodef
    have hcenter : (0 : ℤ) ≤ 540 - ((o : ℤ) + (q : ℤ) / 2) ∧
        540 - ((o : ℤ) + (q : ℤ) / 2) ≤ 1 := by
      rw [hoff]
      omega
    rcases req.hole_shape with _ | _
    · rw [show (bgOpOf 1080 m.length req.quiet_zone_modules
          req.rounded_canvas req.finder_round_ratio LIGHT ::
          (finderOpsOf (geomOf 1080 m.length req.quiet_zone_modules)
            (m.length : ℤ) req.rounded_finders req.finder_round_ratio DARK
            LIGHT ++
          dataOps m (geomOf 1080 m.length req.quiet_zone_modules)
            req.dot_style req.dot_margin DARK ++
          [Op.disk ((o : ℤ) + (q : ℤ) / 2) ((o : ℤ) + (q : ℤ) / 2) (hp / 2)
            LIGHT])) =
          (bgOpOf 1080 m.length req.quiet_zone_modules req.rounded_canvas
            req.finder_round_ratio LIGHT ::
          (finderOpsOf (geomOf 1080 m.length req.quiet_zone_modules)
            (m.length : ℤ) req.rounded_finders req.finder_round_ratio DARK
            LIGHT ++
          dataOps m (geomOf 1080 m.length req.quiet_zone_modules)
            req.dot_style req.dot_margin DARK)) ++
          [Op.disk ((o : ℤ) + (q : ℤ) / 2) ((o : ℤ) + (q : ℤ) / 2) (hp / 2)
            LIGHT] from by simp]
      rw [pixel, evalOps_append]
      have hcov : (Op.disk ((o : ℤ) + (q : ℤ) / 2) ((o : ℤ) + (q : ℤ) / 2)
          (hp / 2) LIGHT).covers 540 540 := by
        simp only [Op.covers]
        have hr2 : 2 ≤ hp / 2 := by omega
        nlinarith [hcenter.1, hcenter.2]
      simp [evalOps, applyOp, hcov]
    · rw [show (bgOpOf 1080 m.length req.quiet_zone_modules
          req.rounded_canvas req.finder_round_ratio LIGHT ::
          (finderOpsOf (geomOf 1080 m.length req.quiet_zone_modules)
            (m.length : ℤ) req.rounded_finders req.finder_round_ratio DARK
            LIGHT ++
          dataOps m (geomOf 1080 m.length req.quiet_zone_modules)
            req.dot_style req.dot_margin DARK ++
          [Op.rect ((o : ℤ) + (q : ℤ) / 2 - hp / 2)
            ((o : ℤ) + (q : ℤ) / 2 - hp / 2)
            ((o : ℤ) + (q : ℤ) / 2 + hp / 2)
            ((o : ℤ) + (q : ℤ) / 2 + hp / 2) LIGHT])) =
          (bgOpOf 1080 m.length req.quiet_zone_modules req.rounded_canvas
            req.finder_round_ratio LIGHT ::
          (finderOpsOf (geomOf 1080 m.length req.quiet_zone_modules)
            (m.length : ℤ) req.rounded_finders req.finder_round_ratio DARK
            LIGHT ++
          dataOps m (geomOf 1080 m.length req.quiet_zone_modules)
            req.dot_style req.dot_margin DARK)) ++
          [Op.rect ((o : ℤ) + (q : ℤ) / 2 - hp / 2)
            ((o : ℤ) + (q : ℤ) / 2 - hp / 2)
            ((o : ℤ) + (q : ℤ) / 2 + hp / 2)
            ((o : ℤ) + (q : ℤ) / 2 + hp / 2) LIGHT] from by simp]
      rw [pixel, evalOps_append]
      have hcov : (Op.rect ((o : ℤ) + (q : ℤ) / 2 - hp / 2)
          ((o : ℤ) + (q : ℤ) / 2 - hp / 2)
          ((o : ℤ) + (q : ℤ) / 2 + hp / 2)
          ((o : ℤ) + (q : ℤ) / 2 + hp / 2) LIGHT).covers 540 540 := by
        simp only [Op.covers, inClosedRect]
        omega
      simp [evalOps, applyOp, hcov]
  · rw [hhole]
    exact holeOpsOf_on 1080 m.length req.quiet_zone_modules
      req.hole_percentage req.hole_shape LIGHT hpos

/-- Witness for C8_hole_masks_center: the default style with the hole
enabled (fraction 0.10, hole_px 107) on the 21 by 21 unit matrix paints
the canvas center pixel with the background white. -/
theorem C8_hole_masks_center_witness :
    pixel blendNone
        ((draw_qr (unitMatrix 10 10) { defaultReq with hole := true }
          none).toOption.getD []) 540 540 = whiteRGBA :=
  (C8_hole_masks_center (unitMatrix 10 10) { defaultReq with hole := true }
    none blackRGBA whiteRGBA blendNone
    ((draw_qr (unitMatrix 10 10) { defaultReq with hole := true }
      none).toOption.getD [])
    (by decide) (by decide) (by decide) (by decide) (by decide) (by decide)
    (by decide) (by decide) (by decide)).1

theorem hole_px_bounds (pct : Frac) (rp : ℤ) (hrp : 0 ≤ rp) :
    0 ≤ (clamp pct fZero fFifth).intMul rp ∧
      5 * ((clamp pct fZero fFifth).intMul rp) ≤ rp := by
  obtain ⟨h0, h1⟩ := clamp_fifth_bounds pct
  set c := clamp pct fZero fFifth with hc
  have hcd : 0 < c.den := c.pos
  have hA : 0 ≤ c.num * rp := mul_nonneg h0 hrp
  constructor
  · exact Int.tdiv_nonneg hA hcd.le
  · rw [Frac.intMul, Int.tdiv_eq_ediv hA hcd.le]
    set q := c.num * rp / c.den with hq
    have hmul : c.den * q ≤ c.num * rp := by
      have h2 := Int.ediv_add_emod (c.num * rp) c.den
      have h3 := Int.emod_nonneg (c.num * rp) hcd.ne.symm
      rw [← hq] at h2
      omega
    have hnum5 : c.num * 5 * rp ≤ c.den * rp :=
      mul_le_mul_of_nonneg_right h1 hrp
    have he : c.den * (5 * q) = 5 * (c.den * q) := by ring
    have he2 : 5 * (c.num * rp) = c.num * 5 * rp := by ring
    have h5q : c.den * (5 * q) ≤ c.den * rp := by
      rw [he]
      calc 5 * (c.den * q) ≤ 5 * (c.num * rp) := by omega
      _ = c.num * 5 * rp := he2
      _ ≤ c.den * rp := hnum5
    exact le_of_mul_le_mul_left h5q hcd

theorem sub_bound (g : Geom) (NZ r0 c0 w x y : ℤ) (hS : 0 ≤ g.S)
    (hB : 1 ≤ g.B) (hc0 : -1 ≤ c0) (hr0 : -1 ≤ r0) (hcw : c0 + w ≤ NZ + 1)
    (hrw : r0 + w ≤ NZ + 1)
    (h1 : g.offset + (g.B + c0) * g.S ≤ x)
    (h2 : x ≤ g.offset + (g.B + c0) * g.S + w * g.S)
    (h3 : g.offset + (g.B + r0) * g.S ≤ y)
    (h4 : y ≤ g.offset + (g.B + r0) * g.S + w * g.S) :
    g.offset ≤ x ∧ x ≤ g.offset + (NZ + 2 * g.B) * g.S ∧
      g.offset ≤ y ∧ y ≤ g.offset + (NZ + 2 * g.B) * g.S := by
  have m0 : 0 ≤ (g.B - 1) * g.S := mul_nonneg (by omega) hS
  have m1c : (g.B - 1) * g.S ≤ (g.B + c0) * g.S :=
    mul_le_mul_of_nonneg_right (by omega) hS
  have m1r : (g.B - 1) * g.S ≤ (g.B + r0) * g.S :=
    mul_le_mul_of_nonneg_right (by omega) hS
  have e1c : (g.B + c0) * g.S + w * g.S = (g.B + c0 + w) * g.S := by ring
  have e1r : (g.B + r0) * g.S + w * g.S = (g.B + r0 + w) * g.S := by ring
  have m2c : (g.B + c0 + w) * g.S ≤ (NZ + 2 * g.B) * g.S :=
    mul_le_mul_of_nonneg_right (by omega) hS
  have m2r : (g.B + r0 + w) * g.S ≤ (NZ + 2 * g.B) * g.S :=
    mul_le_mul_of_nonneg_right (by omega) hS
  omega

theorem finderOpsOf_true (g : Geom) (NZ : ℤ) (ratio : Frac)
    (DARK LIGHT : Color) :
    finderOpsOf g NZ true ratio DARK LIGHT =
      draw_finder g ratio DARK LIGHT 0 0 ++
        draw_finder g ratio DARK LIGHT 0 (NZ - 7) ++
        draw_finder g ratio DARK LIGHT (NZ - 7) 0 := rfl

theorem finderOpsOf_false (g : Geom) (NZ : ℤ) (ratio : Frac)
    (DARK LIGHT : Color) :
    finderOpsOf g NZ false ratio DARK LIGHT =
      squareFinderOps g NZ DARK LIGHT := rfl

theorem finderOps_in_square (g : Geom) (NZ : ℤ) (b : Bool) (ratio : Frac)
    (DARK LIGHT : Color) (x y : ℤ) (hS : 0 ≤ g.S) (hB : 1 ≤ g.B)
    (hN : 7 ≤ NZ) :
    ∀ op ∈ finderOpsOf g NZ b ratio DARK LIGHT, op.covers x y →
      g.offset ≤ x ∧ x ≤ g.offset + (NZ + 2 * g.B) * g.S ∧
        g.offset ≤ y ∧ y ≤ g.offset + (NZ + 2 * g.B) * g.S := by
  intro op hop hcov
  cases b
  · rw [finderOpsOf_false] at hop
    simp only [squareFinderOps, List.mem_cons, List.not_mem_nil,
      or_false] at hop
    rcases hop with rfl | rfl | rfl | rfl | rfl | rfl | rfl | rfl | rfl |
        rfl | rfl | rfl <;>
      exact sub_bound g NZ _ _ _ x y hS hB (by omega) (by omega) (by omega)
        (by omega) hcov.1 hcov.2.1 hcov.2.2.1 hcov.2.2.2
  · rw [finderOpsOf_true] at hop
    simp only [draw_finder, List.mem_append, List.mem_cons,
      List.not_mem_nil, or_false] at hop
    rcases hop with ((rfl | rfl | rfl | rfl) | (rfl | rfl | rfl | rfl)) |
        (rfl | rfl | rfl | rfl)
    case inl.inl.inl =>
      exact sub_bound g NZ _ _ _ x y hS hB (by omega) (by omega) (by omega)
        (by omega) hcov.1 hcov.2.1 hcov.2.2.1 hcov.2.2.2
    all_goals
      first
      | exact sub_bound g NZ _ _ _ x y hS hB (by omega) (by omega)
          (by omega) (by omega) hcov.1 hcov.2.1 hcov.2.2.1 hcov.2.2.2
      | exact sub_bound g NZ _ _ _ x y hS hB (by omega) (by omega)
          (by omega) (by omega) hcov.1.1 hcov.1.2.1 hcov.1.2.2.1
          hcov.1.2.2.2

theorem mem_holeOpsOf (SIZE N B : ℕ) (hole : Bool) (pct : Frac)
    (shape : HoleShape) (LIGHT : Color) (op : Op)
    (hop : op ∈ holeOpsOf SIZE N B hole pct shape LIGHT) :
    op = Op.rect
        ((offsetPx SIZE N B : ℤ) + (renderPx SIZE N B : ℤ) / 2 -
          (clamp pct fZero fFifth).intMul (renderPx SIZE N B : ℤ) / 2)
        ((offsetPx SIZE N B : ℤ) + (renderPx SIZE N B : ℤ) / 2 -
          (clamp pct fZero fFifth).intMul (renderPx SIZE N B : ℤ) / 2)
        ((offsetPx SIZE N B : ℤ) + (renderPx SIZE N B : ℤ) / 2 +
          (clamp pct fZero fFifth).intMul (renderPx SIZE N B : ℤ) / 2)
        ((offsetPx SIZE N B : ℤ) + (renderPx SIZE N B : ℤ) / 2 +
          (clamp pct fZero fFifth).intMul (renderPx SIZE N B : ℤ) / 2)
        LIGHT ∨
      op = Op.disk
        ((offsetPx SIZE N B : ℤ) + (renderPx SIZE N B : ℤ) / 2)
        ((offsetPx SIZE N B : ℤ) + (renderPx SIZE N B : ℤ) / 2)
        ((clamp pct fZero fFifth).intMul (renderPx SIZE N B : ℤ) / 2)
        LIGHT := by
  unfold holeOpsOf at hop
  split_ifs at hop with h
  · cases shape
    · right
      simpa using hop
    · left
      simpa using hop
  · simp at hop

theorem mem_logoOpsOf (SIZE N B : ℕ) (ul hl : Bool) (logo : Option (ℕ × ℕ))
    (op : Op) (hop : op ∈ logoOpsOf SIZE N B ul hl logo) :
    ∃ w h : ℕ,
      op = Op.logoOp
        ((offsetPx SIZE N B : ℤ) + (renderPx SIZE N B : ℤ) / 2 -
          (((thumbnailSize w h ((fFifth.intMul (SIZE : ℤ)).toNat)).1 / 2 :
            ℕ) : ℤ))
        ((offsetPx SIZE N B : ℤ) + (renderPx SIZE N B : ℤ) / 2 -
          (((thumbnailSize w h ((fFifth.intMul (SIZE : ℤ)).toNat)).2 / 2 :
            ℕ) : ℤ))
        (thumbnailSize w h ((fFifth.intMul (SIZE : ℤ)).toNat)).1
        (thumbnailSize w h ((fFifth.intMul (SIZE : ℤ)).toNat)).2 := by
  unfold logoOpsOf at hop
  split_ifs at hop with h
  · cases logo with
    | none => simp at hop
    | some wh =>
      simp only [List.mem_singleton] at hop
      exact ⟨wh.1, wh.2, hop⟩
  · simp at hop

theorem dataOps_in_square (m : List (List Bool)) (g : Geom) (ds : Bool)
    (dm : Frac) (DARK : Color) (op : Op) (x y : ℤ) (hS : 0 ≤ g.S)
    (hB : 0 ≤ g.B) (hop : op ∈ dataOps m g ds dm DARK)
    (hcov : op.covers x y) :
    g.offset ≤ x ∧ x ≤ g.offset + ((m.length : ℤ) + 2 * g.B) * g.S ∧
      g.offset ≤ y ∧ y ≤ g.offset + ((m.length : ℤ) + 2 * g.B) * g.S := by
  obtain ⟨r, c, hr, hc, _, _, b1, b2, b3, b4⟩ :=
    dataOps_covers_bound m g ds dm DARK op x y hS hop hcov
  have hcN : ((c : ℤ)) < (m.length : ℤ) := by exact_mod_cast hc
  have hrN : ((r : ℤ)) < (m.length : ℤ) := by exact_mod_cast hr
  have m1c : 0 ≤ (g.B + (c : ℤ)) * g.S :=
    mul_nonneg (by positivity) hS
  have m1r : 0 ≤ (g.B + (r : ℤ)) * g.S :=
    mul_nonneg (by positivity) hS
  have m2c : (g.B + (c : ℤ) + 1) * g.S ≤
      ((m.length : ℤ) + 2 * g.B) * g.S :=
    mul_le_mul_of_nonneg_right (by omega) hS
  have m2r : (g.B + (r : ℤ) + 1) * g.S ≤
      ((m.length : ℤ) + 2 * g.B) * g.S :=
    mul_le_mul_of_nonneg_right (by omega) hS
  omega

theorem renderPx_lower (N B : ℕ) (hmod : 1 ≤ moduleSize 1080 N B) :
    541 ≤ renderPx 1080 N B := by
  have hmt : 0 < N + 2 * B := by
    by_contra h
    have h0 : N + 2 * B = 0 := by omega
    rw [moduleSize, h0] at hmod
    simp at hmod
  have hle : N + 2 * B ≤ 1080 := by
    by_contra h
    push_neg at h
    have h0 : 1080 / (N + 2 * B) = 0 := Nat.div_eq_of_lt h
    rw [moduleSize, h0] at hmod
    omega
  have h1 := Nat.div_add_mod 1080 (N + 2 * B)
  have h2 : 1080 % (N + 2 * B) < N + 2 * B := Nat.mod_lt 1080 hmt
  have h3 := Nat.mul_le_mul_left (N + 2 * B) hmod
  unfold renderPx moduleSize
  unfold moduleSize at h3
  omega

/-- C10: with the fixed 1080 canvas, a quiet zone of at least one module
and a QR matrix (N at least 21), every pixel strictly outside the symbol
bounding square from offset to offset + renderedPx (inclusive, in both
axes) is untouched by the background, the finders, the data modules, the
hole and the logo, and therefore keeps the transparent canvas value
(0, 0, 0, 0); the leftover centering margin is never painted. -/
theorem C10_outside_symbol_transparent (m : List (List Bool))
    (req : QRRequest) (logo : Option (ℕ × ℕ)) (DARK LIGHT : Color)
    (blend : ℤ → ℤ → Color → Color) (t : List Op) (x y : ℤ)
    (hS : 1 ≤ moduleSize req.pixel_size m.length req.quiet_zone_modules)
    (hf : parse_hex_rgba req.foreground blackRGBA = some DARK)
    (hb : parse_hex_rgba req.background whiteRGBA = some LIGHT)
    (hpix : req.pixel_size = 1080) (hB : 1 ≤ req.quiet_zone_modules)
    (hN : 21 ≤ m.length) (ht : draw_qr m req logo = Except.ok t)
    (hout : x < (offsetPx 1080 m.length req.quiet_zone_modules : ℤ) ∨
      (offsetPx 1080 m.length req.quiet_zone_modules : ℤ) +
        (renderPx 1080 m.length req.quiet_zone_modules : ℤ) < x ∨
      y < (offsetPx 1080 m.length req.quiet_zone_modules : ℤ) ∨
      (offsetPx 1080 m.length req.quiet_zone_modules : ℤ) +
        (renderPx 1080 m.length req.quiet_zone_modules : ℤ) < y) :
    pixel blend t x y = transparent := by
  have hdec := draw_qr_ok_eq m req logo DARK LIGHT hS hf hb
  rw [hpix] at hdec
  have hteq := Except.ok.inj (hdec.symm.trans ht)
  rw [← hteq]
  apply evalOps_of_not_covers
  intro op hop hcov
  have hoff : (geomOf 1080 m.length req.quiet_zone_modules).offset =
      (offsetPx 1080 m.length req.quiet_zone_modules : ℤ) := rfl
  have hsq : ((m.length : ℤ) +
        2 * (geomOf 1080 m.length req.quiet_zone_modules).B) *
        (geomOf 1080 m.length req.quiet_zone_modules).S =
      (renderPx 1080 m.length req.quiet_zone_modules : ℤ) := by
    rw [renderPx_cast]
    rfl
  have hSge : (0 : ℤ) ≤ (geomOf 1080 m.length req.quiet_zone_modules).S :=
    Int.natCast_nonneg _
  have hBproj : (geomOf 1080 m.length req.quiet_zone_modules).B =
      (req.quiet_zone_modules : ℤ) := rfl
  have hBge : (1 : ℤ) ≤ (geomOf 1080 m.length req.quiet_zone_modules).B := by
    rw [hBproj]
    exact_mod_cast hB
  have hrp0 : (0 : ℤ) ≤ (renderPx 1080 m.length req.quiet_zone_modules : ℤ) :=
    Int.natCast_nonneg _
  simp only [List.mem_cons, List.mem_append] at hop
  rcases hop with rfl | (((hop | hop) | hop) | hop)
  · have hc := hcov.1
    simp only [bgOpOf, inClosedRect] at hc
    rcases hc with ⟨hc1, hc2, hc3, hc4⟩
    omega
  · obtain ⟨q1, q2, q3, q4⟩ := finderOps_in_square
      (geomOf 1080 m.length req.quiet_zone_modules) (m.length : ℤ)
      req.rounded_finders req.finder_round_ratio DARK LIGHT x y hSge hBge
      (by exact_mod_cast Nat.le_trans (by omega) hN) op hop hcov
    rw [hoff] at q1 q3
    rw [hsq, hoff] at q2 q4
    omega
  · obtain ⟨q1, q2, q3, q4⟩ := dataOps_in_square m
      (geomOf 1080 m.length req.quiet_zone_modules) req.dot_style
      req.dot_margin DARK op x y hSge (by omega) hop hcov
    rw [hoff] at q1 q3
    rw [hsq, hoff] at q2 q4
    omega
  · obtain ⟨hp0, hp5⟩ := hole_px_bounds req.hole_percentage
      (renderPx 1080 m.length req.quiet_zone_modules : ℤ) hrp0
    rcases mem_holeOpsOf 1080 m.length req.quiet_zone_modules req.hole
        req.hole_percentage req.hole_shape LIGHT op hop with rfl | rfl
    · rcases hcov with ⟨hc1, hc2, hc3, hc4⟩
      omega
    · simp only [Op.covers] at hcov
      have hr0 : (0 : ℤ) ≤ (clamp req.hole_percentage fZero fFifth).intMul
          (renderPx 1080 m.length req.quiet_zone_modules : ℤ) / 2 := by
        omega
      have hx2 : (x - ((offsetPx 1080 m.length req.quiet_zone_modules : ℤ) +
          (renderPx 1080 m.length req.quiet_zone_modules : ℤ) / 2)) ^ 2 ≤
          ((clamp req.hole_percentage fZero fFifth).intMul
            (renderPx 1080 m.length req.quiet_zone_modules : ℤ) / 2) ^ 2 := by
        nlinarith [sq_nonneg (y -
          ((offsetPx 1080 m.length req.quiet_zone_modules : ℤ) +
            (renderPx 1080 m.length req.quiet_zone_modules : ℤ) / 2))]
      have hy2 : (y - ((offsetPx 1080 m.length req.quiet_zone_modules : ℤ) +
          (renderPx 1080 m.length req.quiet_zone_modules : ℤ) / 2)) ^ 2 ≤
          ((clamp req.hole_percentage fZero fFifth).intMul
            (renderPx 1080 m.length req.quiet_zone_modules : ℤ) / 2) ^ 2 := by
        nlinarith [sq_nonneg (x -
          ((offsetPx 1080 m.length req.quiet_zone_modules : ℤ) +
            (renderPx 1080 m.length req.quiet_zone_modules : ℤ) / 2))]
      have hax := abs_le_of_sq_le_sq' hx2 hr0
      have hay := abs_le_of_sq_le_sq' hy2 hr0
      omega
  · obtain ⟨w, h, rfl⟩ := mem_logoOpsOf 1080 m.length
      req.quiet_zone_modules req.use_logo req.has_logo logo op hop
    have hms : (fFifth.intMul ((1080 : ℕ) : ℤ)).toNat = 216 := by decide
    rw [hms] at hcov
    obtain ⟨hw216, hh216⟩ := thumbnailSize_le w h 216 (by omega)
    have hrp541 : 541 ≤ renderPx 1080 m.length req.quiet_zone_modules :=
      renderPx_lower m.length req.quiet_zone_modules (by rw [← hpix]; exact hS)
    rcases hcov with ⟨hc1, hc2, hc3, hc4⟩
    omega

/-- Witness for C10_outside_symbol_transparent: the default render of the
21 by 21 unit matrix has offset 3, and the corner pixel (0, 0) outside the
symbol square stays transparent. -/
theorem C10_outside_symbol_transparent_witness :
    pixel blendNone
        ((draw_qr (unitMatrix 10 10) defaultReq none).toOption.getD [])
        0 0 = transparent :=
  C10_outside_symbol_transparent (unitMatrix 10 10) defaultReq none
    blackRGBA whiteRGBA blendNone
    ((draw_qr (unitMatrix 10 10) defaultReq none).toOption.getD []) 0 0
    (by decide) (by decide) (by decide) (by decide) (by decide) (by decide)
    (by decide) (Or.inl (by decide))

/-- Pixel region of a 9 by 9 finder footprint whose module block is
anchored at module (a, b) (rows a to a + 8, columns b to b + 8): the
half-open union of the pixel cells owned by those modules. -/
def fpRegion (g : Geom) (a b x y : ℤ) : Prop :=
  g.offset + (g.B + b) * g.S ≤ x ∧ x < g.offset + (g.B + b + 9) * g.S ∧
    g.offset + (g.B + a) * g.S ≤ y ∧ y < g.offset + (g.B + a + 9) * g.S

instance (g : Geom) (a b x y : ℤ) : Decidable (fpRegion g a b x y) :=
  inferInstanceAs (Decidable (_ ∧ _))

/-- The default request with square data modules. -/
def reqSquare : QRRequest := { defaultReq with dot_style := false }

/-- C2 counterexample: on a 21 by 21 matrix whose only dark module is
(0, 12) -- a data module just left of the top-right finder footprint --
the square-style data pass draws the PIL rectangle [595, 151, 632, 188],
which fills pixels inclusive of both corners; its rightmost pixel column
x = 632 lies inside the top-right 9 by 9 footprint region (columns N-8 to
N start at pixel x = 632), so data-module drawing does touch a pixel
inside a finder footprint. -/
theorem C2_counterexample :
    Op.rect 595 151 632 188 blackRGBA ∈
        (draw_qr (unitMatrix 0 12) reqSquare none).toOption.getD [] ∧
      (Op.rect 595 151 632 188 blackRGBA).covers 632 151 ∧
      fpRegion (geomOf 1080 21 4) (-1) (21 - 8) 632 151 ∧
      in_finder_footprint 21 0 12 = false := by decide

theorem cell_fp_boundary (g : Geom) (NZ r c x y : ℤ) (hS : 0 ≤ g.S)
    (h0r : 0 ≤ r) (h0c : 0 ≤ c) (hrN : r < NZ) (hcN : c < NZ)
    (hN : 21 ≤ NZ) (hnf : in_finder_footprint NZ r c = false)
    (hx1 : g.offset + (g.B + c) * g.S ≤ x)
    (hx2 : x ≤ g.offset + (g.B + c + 1) * g.S)
    (hy1 : g.offset + (g.B + r) * g.S ≤ y)
    (hy2 : y ≤ g.offset + (g.B + r + 1) * g.S) :
    ¬ fpRegion g (-1) (-1) x y ∧
      (fpRegion g (-1) (NZ - 8) x y →
        x = g.offset + (g.B + NZ - 8) * g.S) ∧
      (fpRegion g (NZ - 8) (-1) x y →
        y = g.offset + (g.B + NZ - 8) * g.S) := by
  simp only [in_finder_footprint, decide_eq_false_iff_not, not_or,
    not_and, not_le] at hnf
  obtain ⟨hTL, hTR, hBL⟩ := hnf
  refine ⟨?_, ?_, ?_⟩
  · rintro ⟨f1, f2, f3, f4⟩
    have hsplit : 8 ≤ r ∨ 8 ≤ c := by
      by_contra hcon
      push_neg at hcon
      exact absurd (hTL (by omega) (by omega) (by omega)) (by omega)
    rcases hsplit with h8 | h8
    · have m1 : (g.B + 8) * g.S ≤ (g.B + r) * g.S :=
        mul_le_mul_of_nonneg_right (by omega) hS
      have e1 : (g.B + -1 + 9) * g.S = (g.B + 8) * g.S := by ring_nf
      omega
    · have m1 : (g.B + 8) * g.S ≤ (g.B + c) * g.S :=
        mul_le_mul_of_nonneg_right (by omega) hS
      have e1 : (g.B + -1 + 9) * g.S = (g.B + 8) * g.S := by ring_nf
      omega
  · rintro ⟨f1, f2, f3, f4⟩
    have hsplit : 8 ≤ r ∨ c ≤ NZ - 9 := by
      by_contra hcon
      push_neg at hcon
      exact absurd (hTR (by omega) (by omega) (by omega)) (by omega)
    rcases hsplit with h8 | h8
    · have m1 : (g.B + 8) * g.S ≤ (g.B + r) * g.S :=
        mul_le_mul_of_nonneg_right (by omega) hS
      have e1 : (g.B + -1 + 9) * g.S = (g.B + 8) * g.S := by ring_nf
      omega
    · have m1 : (g.B + c + 1) * g.S ≤ (g.B + NZ - 8) * g.S :=
        mul_le_mul_of_nonneg_right (by omega) hS
      have e1 : (g.B + (NZ - 8)) * g.S = (g.B + NZ - 8) * g.S := by ring_nf
      omega
  · rintro ⟨f1, f2, f3, f4⟩
    have hsplit : 8 ≤ c ∨ r ≤ NZ - 9 := by
      by_contra hcon
      push_neg at hcon
      exact absurd (hBL (by omega) (by omega) (by omega)) (by omega)
    rcases hsplit with h8 | h8
    · have m1 : (g.B + 8) * g.S ≤ (g.B + c) * g.S :=
        mul_le_mul_of_nonneg_right (by omega) hS
      have e1 : (g.B + -1 + 9) * g.S = (g.B + 8) * g.S := by ring_nf
      omega
    · have m1 : (g.B + r + 1) * g.S ≤ (g.B + NZ - 8) * g.S :=
        mul_le_mul_of_nonneg_right (by omega) hS
      have e1 : (g.B + (NZ - 8)) * g.S = (g.B + NZ - 8) * g.S := by ring_nf
      omega

theorem dataOpOf_inj (g : Geom) (ds : Bool) (dm : Frac) (DARK : Color)
    (hS : g.S ≠ 0) (r c r2 c2 : ℕ)
    (h : dataOpOf g ds dm DARK r c = dataOpOf g ds dm DARK r2 c2) :
    r = r2 ∧ c = c2 := by
  unfold dataOpOf at h
  by_cases hds : ds = true
  · rw [if_pos hds, if_pos hds] at h
    simp only [Op.disk.injEq] at h
    obtain ⟨h1, h2, _, _⟩ := h
    have hc : (g.B + (c : ℤ)) * g.S = (g.B + (c2 : ℤ)) * g.S := by omega
    have hr : (g.B + (r : ℤ)) * g.S = (g.B + (r2 : ℤ)) * g.S := by omega
    have hc2 := mul_right_cancel₀ hS hc
    have hr2 := mul_right_cancel₀ hS hr
    constructor <;> [skip; skip] <;> omega
  · rw [if_neg hds, if_neg hds] at h
    simp only [rectOp, rect_for_block, Op.rect.injEq] at h
    obtain ⟨h1, h2, _, _⟩ := h
    have hc : (g.B + (c : ℤ)) * g.S = (g.B + (c2 : ℤ)) * g.S := by omega
    have hr : (g.B + (r : ℤ)) * g.S = (g.B + (r2 : ℤ)) * g.S := by omega
    have hc2 := mul_right_cancel₀ hS hc
    have hr2 := mul_right_cancel₀ hS hr
    constructor <;> [skip; skip] <;> omega

/-- C2 (amended): module-level exactness holds -- the data pass contains
the primitive for module (row, col) exactly when the module is dark and
(row, col) is outside the three 9 by 9 finder footprints, with the
footprint test as claimed, so light modules are never drawn.  At the pixel
level, every pixel a data primitive touches lies inside the closed pixel
cell of such a dark, non-footprint module; such a cell never meets the
top-left footprint region and can meet the top-right or bottom-left
footprint region only in that region's first pixel column (respectively
row) -- a one-pixel overlap that square modules adjacent to a footprint do
reach, because PIL rectangle fills include both corner coordinates. -/
theorem C2_data_exactness (m : List (List Bool)) (g : Geom) (ds : Bool)
    (dm : Frac) (DARK : Color) (hS : 1 ≤ g.S) (hB : 0 ≤ g.B)
    (hN : 21 ≤ m.length) :
    (∀ r c : ℕ, r < m.length → c < m.length →
      (dataOpOf g ds dm DARK r c ∈ dataOps m g ds dm DARK ↔
        (mAt m r c = true ∧
          in_finder_footprint (m.length : ℤ) (r : ℤ) (c : ℤ) = false))) ∧
    (∀ op ∈ dataOps m g ds dm DARK, ∀ x y : ℤ, op.covers x y →
      ∃ r c : ℕ, r < m.length ∧ c < m.length ∧ mAt m r c = true ∧
        in_finder_footprint (m.length : ℤ) (r : ℤ) (c : ℤ) = false ∧
        g.offset + (g.B + (c : ℤ)) * g.S ≤ x ∧
        x ≤ g.offset + (g.B + (c : ℤ) + 1) * g.S ∧
        g.offset + (g.B + (r : ℤ)) * g.S ≤ y ∧
        y ≤ g.offset + (g.B + (r : ℤ) + 1) * g.S ∧
        ¬ fpRegion g (-1) (-1) x y ∧
        (fpRegion g (-1) ((m.length : ℤ) - 8) x y →
          x = g.offset + (g.B + (m.length : ℤ) - 8) * g.S) ∧
        (fpRegion g ((m.length : ℤ) - 8) (-1) x y →
          y = g.offset + (g.B + (m.length : ℤ) - 8) * g.S)) := by
  constructor
  · intro r c hr hc
    constructor
    · intro hmem
      rw [mem_dataOps_iff] at hmem
      obtain ⟨r2, c2, hr2, hc2, hm2, hfp2, heq⟩ := hmem
      obtain ⟨hre, hce⟩ := dataOpOf_inj g ds dm DARK (by omega) r2 c2 r c
        heq.symm
      subst hre
      subst hce
      exact ⟨hm2, by simpa using hfp2⟩
    · rintro ⟨hm, hfp⟩
      rw [mem_dataOps_iff]
      exact ⟨r, c, hr, hc, hm, by simp [hfp], rfl⟩
  · intro op hop x y hcov
    obtain ⟨r, c, hr, hc, hm, hfp, b1, b2, b3, b4⟩ :=
      dataOps_covers_bound m g ds dm DARK op x y (by omega) hop hcov
    have hfpF : in_finder_footprint (m.length : ℤ) (r : ℤ) (c : ℤ) =
        false := by simpa using hfp
    have hrZ : ((r : ℤ)) < (m.length : ℤ) := by exact_mod_cast hr
    have hcZ : ((c : ℤ)) < (m.length : ℤ) := by exact_mod_cast hc
    have hNZ : (21 : ℤ) ≤ (m.length : ℤ) := by exact_mod_cast hN
    obtain ⟨q1, q2, q3⟩ := cell_fp_boundary g (m.length : ℤ) (r : ℤ) (c : ℤ)
      x y (by omega) (Int.natCast_nonneg r) (Int.natCast_nonneg c) hrZ hcZ
      hNZ hfpF b1 b2 b3 b4
    exact ⟨r, c, hr, hc, hm, hfpF, b1, b2, b3, b4, q1, q2, q3⟩

/-- Witness for C2_data_exactness on the unit matrix with the dark module
(0, 12) and the default square-style geometry: the module primitive of
(0, 12) is in the data pass, and that of the light module (5, 9) is not. -/
theorem C2_data_exactness_witness :
    (dataOpOf (geomOf 1080 21 4) false defaultReq.dot_margin blackRGBA 0 12 ∈
        dataOps (unitMatrix 0 12) (geomOf 1080 21 4) false
          defaultReq.dot_margin blackRGBA ↔
      (mAt (unitMatrix 0 12) 0 12 = true ∧
        in_finder_footprint 21 0 12 = false)) ∧
      dataOpOf (geomOf 1080 21 4) false defaultReq.dot_margin blackRGBA
        0 12 ∈ dataOps (unitMatrix 0 12) (geomOf 1080 21 4) false
          defaultReq.dot_margin blackRGBA :=
  ⟨by
    have h := (C2_data_exactness (unitMatrix 0 12) (geomOf 1080 21 4) false
      defaultReq.dot_margin blackRGBA (by decide) (by decide) (by decide)).1
      0 12 (by decide) (by decide)
    exact h,
    by decide⟩
